import Mathlib

/-!
Verification of the Vehicle Rental System (C++ sources under `include/`).

Shallow embedding conventions:
* C++ `std::string` is modelled as `List Char` (`Str` below); string indexing,
  substrings and lexicographic comparison are modelled on the character list.
* C++ `double` is modelled as `ℚ` (the program only does exact small-magnitude
  decimal arithmetic in the claims under study; binary floating-point rounding
  is outside the model).  C++ `int` is modelled as `ℤ`.
* A C++ function that can `throw` is modelled as returning `Except String α`,
  the `String` being the exact `what()` message of the thrown
  `std::invalid_argument` / `std::runtime_error`.
* Manager operations that mutate a `VehicleManager` in place are modelled as
  state-passing functions `MState → ... → Except (String × MState) MState`:
  the error case carries the state of the manager at the moment the exception
  escapes (the C++ operations either throw before any mutation, or the model
  reproduces the partial mutation explicitly).
-/

namespace VRS

/-- C++ `std::string`, modelled as its character list. -/
abbrev Str := List Char

/-- Numeric value of a decimal digit character (`c - '0'` in C++). -/
def digitVal (c : Char) : Nat := c.toNat - 48

/-- Model of C's `isdigit` on the ASCII digits, as used by
`Rental::isValidDate` (identical to Lean's `Char.isDigit`). -/
def isDigitChar (c : Char) : Bool := 48 ≤ c.toNat && c.toNat ≤ 57

/-- Value of a digit string read most-significant-first with accumulator,
exactly the digit loop that `std::stoi` / `std::stod` perform. -/
def natVal (s : Str) : Nat := s.foldl (fun a c => 10 * a + digitVal c) 0

/-- The character for a decimal digit. -/
def digitChar (d : Nat) : Char :=
  match d with
  | 0 => '0' | 1 => '1' | 2 => '2' | 3 => '3' | 4 => '4'
  | 5 => '5' | 6 => '6' | 7 => '7' | 8 => '8' | _ => '9'

/-- Digits of `n` in base 10, most significant first (empty for 0). -/
def natDigits (n : Nat) : Str :=
  if h : n = 0 then []
  else natDigits (n / 10) ++ [digitChar (n % 10)]
decreasing_by exact Nat.div_lt_self (Nat.pos_of_ne_zero h) (by norm_num)

/-- Decimal rendering of a `Nat`, as `operator<<` prints a non-negative
integer. -/
def natToStr (n : Nat) : Str := if n = 0 then ['0'] else natDigits n

/-- Decimal rendering of an `Int`, as `operator<<` prints an `int`. -/
def intToStr (n : Int) : Str :=
  if n < 0 then '-' :: natToStr n.natAbs else natToStr n.toNat

/-- Split a string into (leading digit run, rest). -/
def digitsLead (s : Str) : Str × Str := (s.takeWhile isDigitChar, s.dropWhile isDigitChar)

/-- Model of `std::stoi`: optional sign, then a non-empty digit run (error —
the C++ function throws `std::invalid_argument` — when there is none);
any remaining characters are ignored.  Leading whitespace never occurs in the
strings this program parses.  Out-of-range values (which make `std::stoi`
throw `std::out_of_range`) are not modelled: every integer this program
round-trips originated in an `int`. -/
def stoiE (s : Str) : Except String Int :=
  match s with
  | [] => .error "stoi"
  | c :: rest =>
      if c = '-' then
        match digitsLead rest with
        | ([], _) => .error "stoi"
        | (ds, _) => .ok (-(natVal ds : Int))
      else if c = '+' then
        match digitsLead rest with
        | ([], _) => .error "stoi"
        | (ds, _) => .ok (natVal ds : Int)
      else
        match digitsLead (c :: rest) with
        | ([], _) => .error "stoi"
        | (ds, _) => .ok (natVal ds : Int)

/-- Model of `std::stod` restricted to plain decimal notation: optional sign,
integer digits, optional `.` plus fraction digits; at least one digit overall;
trailing characters ignored.  (The exponent forms C++ would also accept never
occur in the files this development reasons about.) -/
def stodE (s : Str) : Except String ℚ :=
  let core : Str → Except String ℚ := fun t =>
    match digitsLead t with
    | (ds, rest) =>
      match rest with
      | '.' :: rest2 =>
          match digitsLead rest2 with
          | (fs, _) =>
            if ds = [] && fs = [] then .error "stod"
            else .ok ((natVal ds : ℚ) + (natVal fs : ℚ) / (10 ^ fs.length : ℚ))
      | _ => if ds = [] then .error "stod" else .ok (natVal ds : ℚ)
  match s with
  | [] => core []
  | c :: rest =>
      if c = '-' then (core rest).map (fun q => -q)
      else if c = '+' then core rest
      else core (c :: rest)

/-- Model of `operator<<` printing a `double`, on the sub-domain this
development uses it on: a non-negative integer value below 10^6 is printed as
its plain decimal digits (exactly what C++ default formatting does there).
Values outside that sub-domain are rendered in an ad-hoc exact form `num/den`;
C++ would instead round to 6 significant digits, so every theorem about the
text format restricts the numeric fields to the faithful sub-domain. -/
def fmtQ (q : ℚ) : Str :=
  if q.den = 1 && 0 ≤ q.num then natToStr q.num.toNat
  else intToStr q.num ++ '/' :: natToStr q.den

/-- `std::getline(ss, segment, ';')` looping, as used throughout
`VehicleManager`: splits on `;`, with no final empty segment when the string
ends in `;`, and no segment at all for the empty string. -/
def splitSemiCore (cur : Str) : Str → List Str
  | [] => [cur.reverse]
  | c :: cs =>
      if c = ';' then
        cur.reverse :: (if cs = [] then [] else splitSemiCore [] cs)
      else splitSemiCore (c :: cur) cs

/-- See `splitSemiCore`. -/
def splitSemi (s : Str) : List Str :=
  if s = [] then [] else splitSemiCore [] s

/-- Join fields with `;`, as the `<< field << ";"` chains in
`VehicleManager::saveToFile` produce. -/
def joinSemi : List Str → Str
  | [] => []
  | [x] => x
  | x :: xs => x ++ ';' :: joinSemi xs

/-- C++ `std::string operator<` (lexicographic by character value). -/
def lexLt : Str → Str → Bool
  | _, [] => false
  | [], _ :: _ => true
  | a :: as, b :: bs =>
      if a.toNat < b.toNat then true
      else if b.toNat < a.toNat then false
      else lexLt as bs

/-- C++ `std::string operator<=`. -/
def lexLe (a b : Str) : Bool := !lexLt b a

/-! ### Dates (`Rental.hpp`) -/

/-- `Rental::isLeapYear`. -/
def isLeapYear (y : Nat) : Bool := (y % 4 == 0 && y % 100 != 0) || y % 400 == 0

/-- `Rental::getDaysInMonth`. -/
def getDaysInMonth (m y : Nat) : Nat :=
  if m < 1 || 12 < m then 0
  else
    let d : Nat :=
      match m with
      | 1 => 31 | 2 => 28 | 3 => 31 | 4 => 30 | 5 => 31 | 6 => 30
      | 7 => 31 | 8 => 31 | 9 => 30 | 10 => 31 | 11 => 30 | _ => 31
    if m = 2 && isLeapYear y then d + 1 else d

/-- `std::stoi` on a substring that the callers have already checked to be all
digits; on other inputs the C++ call would throw, which never happens in the
guarded call sites this function models (`isValidDate`, and `countTotalDays`
on dates already validated by the `Rental` constructor). -/
def stoiN (s : Str) : Nat := natVal (s.takeWhile isDigitChar)

/-- Year field of a `YYYY-MM-DD` string: `stoi(date.substr(0, 4))`. -/
def yearOf (date : Str) : Nat := stoiN (date.take 4)

/-- Month field: `stoi(date.substr(5, 2))`. -/
def monthOf (date : Str) : Nat := stoiN ((date.drop 5).take 2)

/-- Day field: `stoi(date.substr(8, 2))`. -/
def dayOf (date : Str) : Nat := stoiN ((date.drop 8).take 2)

/-- `Rental::isValidDate`. -/
def isValidDate (date : Str) : Bool :=
  if date.length ≠ 10 then false
  else if date.getD 4 ' ' ≠ '-' ∨ date.getD 7 ' ' ≠ '-' then false
  else if ¬ ((List.range 10).all fun i => i == 4 || i == 7 || isDigitChar (date.getD i ' ')) then false
  else if monthOf date < 1 ∨ 12 < monthOf date then false
  else if dayOf date < 1 ∨ getDaysInMonth (monthOf date) (yearOf date) < dayOf date then false
  else true

/-- `Rental::countTotalDays`: day of month, plus 365/366 per complete year
before the date's year (the loop starts at year 1), plus the days of each
complete month before the date's month. -/
def countTotalDays (date : Str) : Nat :=
  let y := yearOf date
  let m := monthOf date
  let d := dayOf date
  d + (∑ i ∈ Finset.Ico 1 y, if isLeapYear i then 366 else 365)
    + (∑ i ∈ Finset.Ico 1 m, getDaysInMonth i y)

/-! ### Vehicles (`Vehicle.hpp` and subclasses) -/

/-- `Vehicle::LicenceCategory`. -/
inductive LicenceCategory
  | A
  | B
  | C
deriving DecidableEq, Repr

/-- `CombustionVehicle::FuelType`. -/
inductive FuelType
  | gasoline
  | diesel
deriving DecidableEq, Repr

/-- Variant-specific payload of the four concrete vehicle classes. -/
inductive VehicleData
  | combustionCar (engineSize : Int) (fuelConsumption : ℚ) (fuelType : FuelType) (doors : Int)
  | electricCar (batteryCapacity : ℚ) (doors : Int)
  | truck (engineSize : Int) (fuelConsumption : ℚ) (fuelType : FuelType) (cargoCapacity : Int)
  | motorcycle (engineSize : Int) (fuelConsumption : ℚ) (fuelType : FuelType)
deriving DecidableEq, Repr

/-- A fully constructed vehicle object: base-class fields of `Vehicle` plus
the variant payload. -/
structure Vehicle where
  regNumber : Str
  brand : Str
  model : Str
  mileage : ℚ
  baseCost : ℚ
  licenceCat : LicenceCategory
  vdata : VehicleData
deriving DecidableEq, Repr

/-- The validation of the `Vehicle` base-class constructor.  Note that it
checks only the three string fields: `mileage` and `baseCost` are stored
unchecked (only the setters `setMileage` / `setBaseCost` validate them). -/
def vehicleBaseErr (reg brand model : Str) : Option String :=
  if reg = [] then some "Registration number cannot be empty."
  else if 9 < reg.length then some "Registration number cannot exceed 9 characters."
  else if brand = [] then some "Brand cannot be empty."
  else if model = [] then some "Model cannot be empty."
  else none

/-- The additional validation of the `CombustionVehicle` constructor. -/
def combustionErr (engine : Int) (consumption : ℚ) : Option String :=
  if engine ≤ 0 then some "Engine size must be positive."
  else if consumption ≤ 0 then some "Fuel consumption must be positive."
  else none

/-- The `CombustionCar` parameterized constructor (base-class checks run
first, as C++ constructs base subobjects first). -/
def combustionCarMk (reg brand model : Str) (miles cost : ℚ) (cat : LicenceCategory)
    (engine : Int) (consumption : ℚ) (fuel : FuelType) (numDoors : Int) :
    Except String Vehicle :=
  match vehicleBaseErr reg brand model with
  | some e => .error e
  | none =>
    match combustionErr engine consumption with
    | some e => .error e
    | none =>
      if numDoors ≤ 0 then .error "Number of doors must be positive."
      else .ok ⟨reg, brand, model, miles, cost, cat, .combustionCar engine consumption fuel numDoors⟩

/-- The `ElectricCar` parameterized constructor. -/
def electricCarMk (reg brand model : Str) (miles cost : ℚ) (cat : LicenceCategory)
    (battery : ℚ) (numDoors : Int) : Except String Vehicle :=
  match vehicleBaseErr reg brand model with
  | some e => .error e
  | none =>
    if battery ≤ 0 then .error "Battery capacity must be positive."
    else if numDoors ≤ 0 then .error "Number of doors must be positive."
    else .ok ⟨reg, brand, model, miles, cost, cat, .electricCar battery numDoors⟩

/-- The `Truck` parameterized constructor. -/
def truckMk (reg brand model : Str) (miles cost : ℚ) (cat : LicenceCategory)
    (engine : Int) (consumption : ℚ) (fuel : FuelType) (capacity : Int) :
    Except String Vehicle :=
  match vehicleBaseErr reg brand model with
  | some e => .error e
  | none =>
    match combustionErr engine consumption with
    | some e => .error e
    | none =>
      if capacity ≤ 0 then .error "Cargo capacity must be positive."
      else .ok ⟨reg, brand, model, miles, cost, cat, .truck engine consumption fuel capacity⟩

/-- The `Motorcycle` parameterized constructor. -/
def motorcycleMk (reg brand model : Str) (miles cost : ℚ) (cat : LicenceCategory)
    (engine : Int) (consumption : ℚ) (fuel : FuelType) : Except String Vehicle :=
  match vehicleBaseErr reg brand model with
  | some e => .error e
  | none =>
    match combustionErr engine consumption with
    | some e => .error e
    | none => .ok ⟨reg, brand, model, miles, cost, cat, .motorcycle engine consumption fuel⟩

/-- `Vehicle::calculateRentCost`, dispatched over the four overrides.
`CombustionCar` and `Motorcycle` throw on `days <= 0`; `ElectricCar` and
`Truck` silently return 0 there. -/
def calculateRentCost (v : Vehicle) (days : Int) : Except String ℚ :=
  match v.vdata with
  | .combustionCar _ _ _ _ =>
      if days ≤ 0 then .error "Rental duration must be positive."
      else .ok (v.baseCost * days)
  | .electricCar _ _ =>
      if days ≤ 0 then .ok 0 else .ok (v.baseCost * days)
  | .truck _ _ _ cargo =>
      if days ≤ 0 then .ok 0
      else .ok (v.baseCost * days + (cargo : ℚ) * 0.1 * days)
  | .motorcycle _ _ _ =>
      if days ≤ 0 then .error "Rental duration must be positive."
      else .ok (v.baseCost * days)

/-- `Vehicle::setMileage`. -/
def setMileage (v : Vehicle) (newMileage : ℚ) : Except String Vehicle :=
  if newMileage < 0 then .error "Mileage cannot be negative."
  else if newMileage < v.mileage then .error "New mileage cannot be lower than current mileage."
  else .ok { v with mileage := newMileage }

/-! ### Customers (`Customer.hpp`) -/

/-- `CustomerType`. -/
inductive CustomerType
  | privateCustomer
  | businessCustomer
deriving DecidableEq, Repr

/-- A constructed customer.  In both concrete classes the distinguishing
field (ID-card number resp. NIP) is passed to the base constructor as the
`id`, so it always equals `id` and is not stored separately here. -/
structure Customer where
  id : Str
  name : Str
  address : Str
  ctype : CustomerType
deriving DecidableEq, Repr

/-- The `Customer` base constructor validation (all three strings
non-empty). -/
def customerBaseErr (id name address : Str) : Option String :=
  if id = [] then some "ID cannot be empty."
  else if name = [] then some "Name cannot be empty."
  else if address = [] then some "Address cannot be empty."
  else none

/-- The `PrivateCustomer` constructor: `Customer(idCard, name, addr)` plus a
(redundant) emptiness check on the ID card. -/
def privateCustomerMk (name addr idCard : Str) : Except String Customer :=
  match customerBaseErr idCard name addr with
  | some e => .error e
  | none =>
    if idCard = [] then .error "ID Card number cannot be empty."
    else .ok ⟨idCard, name, addr, .privateCustomer⟩

/-- The `BusinessCustomer` constructor. -/
def businessCustomerMk (name addr nipVal : Str) : Except String Customer :=
  match customerBaseErr nipVal name addr with
  | some e => .error e
  | none =>
    if nipVal = [] then .error "NIP cannot be empty."
    else .ok ⟨nipVal, name, addr, .businessCustomer⟩

/-! ### Rentals (`Rental.hpp`) -/

/-- A rental.  The C++ object stores raw pointers to the vehicle and the
customer; since the manager looks vehicles up by registration number and
customers by id (both unique in every reachable manager state), the model
stores those keys instead — the refactoring the spec itself recommends. -/
structure Rental where
  vehReg : Str
  custId : Str
  startDate : Str
  endDate : Str
deriving DecidableEq, Repr

/-- The `Rental` parameterized constructor.  The two null-pointer checks of
the C++ constructor are omitted: the manager always passes the non-null
results of successful lookups. -/
def rentalMk (vehReg custId startDate endDate : Str) : Except String Rental :=
  if ¬ isValidDate startDate then .error "Start date must be in format YYYY-MM-DD."
  else if ¬ isValidDate endDate then .error "End date must be in format YYYY-MM-DD."
  else if lexLe endDate startDate then .error "End date must be later than start date."
  else .ok ⟨vehReg, custId, startDate, endDate⟩

/-- `Rental::getRentalDays`. -/
def getRentalDays (r : Rental) : Int :=
  if r.startDate = [] || r.endDate = [] then 0
  else
    let startTotal : Int := countTotalDays r.startDate
    let endTotal : Int := countTotalDays r.endDate
    let days := endTotal - startTotal
    if days < 1 then 1 else days

/-- `Rental::calculateTotalCost` (the vehicle the C++ object points to is
passed explicitly; the null-vehicle early return never fires for
manager-held rentals). -/
def calculateTotalCost (r : Rental) (v : Vehicle) : Except String ℚ :=
  calculateRentCost v (getRentalDays r)

/-! ### The manager (`VehicleManager.hpp`) -/

/-- The state owned by a `VehicleManager`: the three entity collections plus
the history log, in insertion order. -/
structure MState where
  vehicles : List Vehicle
  customers : List Customer
  rentals : List Rental
  rentalHistory : List Str
deriving DecidableEq, Repr

/-- The state of a freshly constructed manager. -/
def emptyMState : MState := ⟨[], [], [], []⟩

/-- Result of a mutating manager operation: on success the produced value and
the new state, on failure the exception message and the state of the manager
at the moment the exception escapes. -/
abbrev MRes (α : Type) := Except (String × MState) (α × MState)

/-- `VehicleManager::isRegNumberUnique`. -/
def isRegNumberUnique (s : MState) (regNumber : Str) : Bool :=
  s.vehicles.all fun v => ¬ v.regNumber = regNumber

/-- `VehicleManager::isCustomerIdUnique`. -/
def isCustomerIdUnique (s : MState) (id : Str) : Bool :=
  s.customers.all fun c => ¬ c.id = id

/-- `VehicleManager::getVehicle` (first match or null). -/
def getVehicleIn (s : MState) (regNumber : Str) : Option Vehicle :=
  s.vehicles.find? fun v => v.regNumber = regNumber

/-- `VehicleManager::getCustomer`. -/
def getCustomerIn (s : MState) (id : Str) : Option Customer :=
  s.customers.find? fun c => c.id = id

/-- `VehicleManager::addVehicle`.  The null check is omitted (values are
always present in the model). -/
def addVehicle (s : MState) (v : Vehicle) : MRes Unit :=
  if isRegNumberUnique s v.regNumber then
    .ok ((), { s with vehicles := s.vehicles ++ [v] })
  else .error ("Vehicle with this registration number already exists.", s)

/-- `VehicleManager::removeVehicle`: throws if an active rental references
the registration, removes every vehicle with that registration otherwise,
and throws "not found" when nothing matched. -/
def removeVehicle (s : MState) (regNumber : Str) : MRes Unit :=
  if s.rentals.any (fun r => r.vehReg = regNumber) then
    .error ("Cannot remove vehicle that is currently rented.", s)
  else if s.vehicles.any (fun v => v.regNumber = regNumber) then
    .ok ((), { s with vehicles := s.vehicles.filter fun v => ¬ v.regNumber = regNumber })
  else .error ("Vehicle not found.", s)

/-- `VehicleManager::addCustomer`. -/
def addCustomer (s : MState) (c : Customer) : MRes Unit :=
  if isCustomerIdUnique s c.id then
    .ok ((), { s with customers := s.customers ++ [c] })
  else .error ("Customer with this ID already exists.", s)

/-- `VehicleManager::removeCustomer`. -/
def removeCustomer (s : MState) (id : Str) : MRes Unit :=
  if s.rentals.any (fun r => r.custId = id) then
    .error ("Cannot remove customer who has active rentals.", s)
  else if s.customers.any (fun c => c.id = id) then
    .ok ((), { s with customers := s.customers.filter fun c => ¬ c.id = id })
  else .error ("Customer not found.", s)

/-- `VehicleManager::findAvailableVehicles`: vehicles no active rental
references.  (The C++ loop compares the rental's vehicle pointer with the
collection entry; in every reachable state that pointer is the unique
collection entry carrying the rental's registration number, so the model
compares registration numbers.) -/
def findAvailableVehicles (s : MState) : List Vehicle :=
  s.vehicles.filter fun v => ¬ s.rentals.any fun r => r.vehReg = v.regNumber

/-- `VehicleManager::rentVehicle` (the `showMessage` flag only controls
console output and is not modelled). -/
def rentVehicle (s : MState) (regNumber customerId startDate endDate : Str) : MRes Unit :=
  match getVehicleIn s regNumber with
  | none => .error ("Vehicle not found.", s)
  | some _ =>
    match getCustomerIn s customerId with
    | none => .error ("Customer not found.", s)
    | some _ =>
      if s.rentals.any (fun r => r.vehReg = regNumber) then
        .error ("Vehicle is already rented.", s)
      else
        match rentalMk regNumber customerId startDate endDate with
        | .error e => .error (e, s)
        | .ok r => .ok ((), { s with rentals := s.rentals ++ [r] })

/-- Replace the first vehicle carrying `regNumber` (the mutation C++
performs through the rental's vehicle pointer). -/
def replaceVehicle : List Vehicle → Str → Vehicle → List Vehicle
  | [], _, _ => []
  | v :: vs, regNumber, v' =>
      if v.regNumber = regNumber then v' :: vs
      else v :: replaceVehicle vs regNumber v'

/-- Remove the first rental carrying `regNumber` (`rentals.erase(it)`). -/
def eraseRental : List Rental → Str → List Rental
  | [], _ => []
  | r :: rs, regNumber =>
      if r.vehReg = regNumber then rs else r :: eraseRental rs regNumber

/-- The history line `returnVehicle` appends:
`Brand Model (Reg);Name (Id);Start;End;Cost`. -/
def historyLine (v : Vehicle) (c : Customer) (r : Rental) (cost : ℚ) : Str :=
  v.brand ++ " ".data ++ v.model ++ " (".data ++ v.regNumber ++ ");".data
    ++ c.name ++ " (".data ++ c.id ++ ");".data
    ++ r.startDate ++ ";".data ++ r.endDate ++ ";".data ++ fmtQ cost

/-- `VehicleManager::returnVehicle`.  The rental's vehicle / customer
pointers are dereferenced by looking the keys up in the collections; the
`dangling pointer` error branches are unreachable from any reachable manager
state (in C++ they would be undefined behaviour) and exist only to make the
function total. -/
def returnVehicle (s : MState) (regNumber : Str) (newMileage : ℚ) : MRes ℚ :=
  match s.rentals.find? (fun r => r.vehReg = regNumber) with
  | none => .error ("Rental not found for this vehicle.", s)
  | some r =>
    match getVehicleIn s r.vehReg with
    | none => .error ("dangling vehicle pointer", s)
    | some v =>
      match setMileage v newMileage with
      | .error e => .error (e, s)
      | .ok v' =>
        let s₁ := { s with vehicles := replaceVehicle s.vehicles r.vehReg v' }
        match getCustomerIn s₁ r.custId with
        | none => .error ("dangling customer pointer", s₁)
        | some c =>
          match calculateTotalCost r v' with
          | .error e => .error (e, s₁)
          | .ok cost =>
            .ok (cost,
              { s₁ with
                rentals := eraseRental s₁.rentals regNumber
                rentalHistory := s₁.rentalHistory ++ [historyLine v' c r cost] })

/-! ### Persistence (`saveToFile` / `loadFromFile`)

A file is modelled as its list of lines (`List Str`); a missing /
unopenable file as `none`. -/

/-- `static_cast<int>` of a `FuelType` (Gasoline = 0, Diesel = 1). -/
def fuelToNat : FuelType → Nat
  | .gasoline => 0
  | .diesel => 1

/-- `static_cast<int>` of a `LicenceCategory` (A = 0, B = 1, C = 2). -/
def catToNat : LicenceCategory → Nat
  | .A => 0
  | .B => 1
  | .C => 2

/-- `static_cast<CombustionVehicle::FuelType>` of a loaded int.  Values
other than 0 and 1 are undefined behaviour in C++; the model maps them to
`gasoline`.  No theorem exercises that branch. -/
def natToFuel (n : Int) : FuelType := if n = 1 then .diesel else .gasoline

/-- `static_cast<Vehicle::LicenceCategory>` of a loaded int (same caveat as
`natToFuel`). -/
def natToCat (n : Int) : LicenceCategory :=
  if n = 0 then .A else if n = 1 then .B else .C

/-- The `;`-separated fields `saveToFile` writes for one vehicle. -/
def vehicleFields (v : Vehicle) : List Str :=
  match v.vdata with
  | .combustionCar engine consumption fuel doors =>
      ["CombustionCar".data, v.brand, v.model, v.regNumber, fmtQ v.baseCost,
        intToStr engine, fmtQ consumption, natToStr (fuelToNat fuel),
        natToStr (catToNat v.licenceCat), fmtQ v.mileage, intToStr doors]
  | .electricCar battery doors =>
      ["ElectricCar".data, v.brand, v.model, v.regNumber, fmtQ v.baseCost,
        fmtQ battery, natToStr (catToNat v.licenceCat), fmtQ v.mileage, intToStr doors]
  | .truck engine consumption fuel capacity =>
      ["Truck".data, v.brand, v.model, v.regNumber, fmtQ v.baseCost,
        intToStr engine, fmtQ consumption, natToStr (fuelToNat fuel),
        natToStr (catToNat v.licenceCat), fmtQ v.mileage, intToStr capacity]
  | .motorcycle engine consumption fuel =>
      ["Motorcycle".data, v.brand, v.model, v.regNumber, fmtQ v.baseCost,
        intToStr engine, fmtQ consumption, natToStr (fuelToNat fuel),
        natToStr (catToNat v.licenceCat), fmtQ v.mileage]

/-- The fields `saveToFile` writes for one customer. -/
def customerFields (c : Customer) : List Str :=
  match c.ctype with
  | .privateCustomer => ["PrivateCustomer".data, c.name, c.address, c.id]
  | .businessCustomer => ["BusinessCustomer".data, c.name, c.address, c.id]

/-- The fields `saveToFile` writes for one rental. -/
def rentalFields (r : Rental) : List Str :=
  [r.vehReg, r.custId, r.startDate, r.endDate]

/-- `VehicleManager::saveToFile`: four counted sections. -/
def saveToFile (s : MState) : List Str :=
  natToStr s.vehicles.length :: s.vehicles.map (fun v => joinSemi (vehicleFields v))
    ++ natToStr s.customers.length :: s.customers.map (fun c => joinSemi (customerFields c))
    ++ natToStr s.rentals.length :: s.rentals.map (fun r => joinSemi (rentalFields r))
    ++ natToStr s.rentalHistory.length :: s.rentalHistory

/-- One count line: `if (std::getline(file, line)) n = std::stoi(line);` —
at end of file the count stays 0; a line `std::stoi` cannot parse makes the
whole load throw. -/
def readCount : List Str → Except String (Int × List Str)
  | [] => .ok (0, [])
  | l :: rest =>
      match stoiE l with
      | .error e => .error e
      | .ok n => .ok (n, rest)

/-- Parsing of one vehicle line inside the `try` block of `loadFromFile`:
any `stoi` / `stod` failure or constructor throw yields `none` (the C++
code prints a diagnostic and skips the line), as does an unknown type tag. -/
def parseVehicleLine (parts : List Str) : Option Vehicle :=
  if parts.getD 0 [] = "CombustionCar".data ∧ 11 ≤ parts.length then
    match stodE (parts.getD 9 []), stodE (parts.getD 4 []), stoiE (parts.getD 7 []),
        stoiE (parts.getD 8 []), stoiE (parts.getD 5 []), stodE (parts.getD 6 []),
        stoiE (parts.getD 10 []) with
    | .ok miles, .ok cost, .ok fuel, .ok cat, .ok engine, .ok consumption, .ok doors =>
        (combustionCarMk (parts.getD 3 []) (parts.getD 1 []) (parts.getD 2 []) miles cost
          (natToCat cat) engine consumption (natToFuel fuel) doors).toOption
    | _, _, _, _, _, _, _ => none
  else if parts.getD 0 [] = "ElectricCar".data ∧ 9 ≤ parts.length then
    match stodE (parts.getD 7 []), stodE (parts.getD 4 []), stoiE (parts.getD 6 []),
        stodE (parts.getD 5 []), stoiE (parts.getD 8 []) with
    | .ok miles, .ok cost, .ok cat, .ok battery, .ok doors =>
        (electricCarMk (parts.getD 3 []) (parts.getD 1 []) (parts.getD 2 []) miles cost
          (natToCat cat) battery doors).toOption
    | _, _, _, _, _ => none
  else if parts.getD 0 [] = "Truck".data ∧ 11 ≤ parts.length then
    match stodE (parts.getD 9 []), stodE (parts.getD 4 []), stoiE (parts.getD 7 []),
        stoiE (parts.getD 8 []), stoiE (parts.getD 5 []), stodE (parts.getD 6 []),
        stoiE (parts.getD 10 []) with
    | .ok miles, .ok cost, .ok fuel, .ok cat, .ok engine, .ok consumption, .ok capacity =>
        (truckMk (parts.getD 3 []) (parts.getD 1 []) (parts.getD 2 []) miles cost
          (natToCat cat) engine consumption (natToFuel fuel) capacity).toOption
    | _, _, _, _, _, _, _ => none
  else if parts.getD 0 [] = "Motorcycle".data ∧ 10 ≤ parts.length then
    match stodE (parts.getD 9 []), stodE (parts.getD 4 []), stoiE (parts.getD 7 []),
        stoiE (parts.getD 8 []), stoiE (parts.getD 5 []), stodE (parts.getD 6 []) with
    | .ok miles, .ok cost, .ok fuel, .ok cat, .ok engine, .ok consumption =>
        (motorcycleMk (parts.getD 3 []) (parts.getD 1 []) (parts.getD 2 []) miles cost
          (natToCat cat) engine consumption (natToFuel fuel)).toOption
    | _, _, _, _, _, _ => none
  else none

/-- The vehicle-loading loop of `loadFromFile`: reads up to `n` lines
(stopping early at end of file), skipping empty and unparsable lines. -/
def loadVehiclesLoop : Nat → List Str → List Vehicle → List Vehicle × List Str
  | 0, lines, acc => (acc, lines)
  | _ + 1, [], acc => (acc, [])
  | n + 1, l :: rest, acc =>
      let parts := splitSemi l
      if parts = [] then loadVehiclesLoop n rest acc
      else
        match parseVehicleLine parts with
        | some v => loadVehiclesLoop n rest (acc ++ [v])
        | none => loadVehiclesLoop n rest acc

/-- Parsing of one customer line (skips short lines, unknown tags and
constructor throws). -/
def parseCustomerLine (parts : List Str) : Option Customer :=
  if parts.getD 0 [] = "PrivateCustomer".data ∧ 4 ≤ parts.length then
    (privateCustomerMk (parts.getD 1 []) (parts.getD 2 []) (parts.getD 3 [])).toOption
  else if parts.getD 0 [] = "BusinessCustomer".data ∧ 4 ≤ parts.length then
    (businessCustomerMk (parts.getD 1 []) (parts.getD 2 []) (parts.getD 3 [])).toOption
  else none

/-- The customer-loading loop of `loadFromFile`. -/
def loadCustomersLoop : Nat → List Str → List Customer → List Customer × List Str
  | 0, lines, acc => (acc, lines)
  | _ + 1, [], acc => (acc, [])
  | n + 1, l :: rest, acc =>
      let parts := splitSemi l
      if parts = [] then loadCustomersLoop n rest acc
      else
        match parseCustomerLine parts with
        | some c => loadCustomersLoop n rest (acc ++ [c])
        | none => loadCustomersLoop n rest acc

/-- The rental-replay loop of `loadFromFile`: each saved rental goes through
`rentVehicle` again; a failing replay is silently skipped
(`catch (...) {}`). -/
def loadRentalsLoop : MState → Nat → List Str → MState × List Str
  | st, 0, lines => (st, lines)
  | st, _ + 1, [] => (st, [])
  | st, n + 1, l :: rest =>
      let parts := splitSemi l
      if parts.length < 4 then loadRentalsLoop st n rest
      else
        match rentVehicle st (parts.getD 0 []) (parts.getD 1 []) (parts.getD 2 [])
            (parts.getD 3 []) with
        | .ok (_, st') => loadRentalsLoop st' n rest
        | .error _ => loadRentalsLoop st n rest

/-- The history-loading loop: reads up to `n` lines verbatim. -/
def loadHistoryLoop : Nat → List Str → List Str
  | 0, _ => []
  | _ + 1, [] => []
  | n + 1, l :: rest => l :: loadHistoryLoop n rest

/-- `VehicleManager::loadFromFile`.  A missing file returns immediately
(state untouched).  Otherwise the three entity collections are cleared
first; the history is only cleared when its own section is reached.  A
count line `std::stoi` cannot parse throws out of the function, leaving the
partially loaded state behind — the error case carries that state. -/
def loadFromFile (s : MState) (file : Option (List Str)) : Except (String × MState) MState :=
  match file with
  | none => .ok s
  | some lines =>
    let s₀ : MState := { s with rentals := [], vehicles := [], customers := [] }
    match readCount lines with
    | .error e => .error (e, s₀)
    | .ok (vCount, r₁) =>
      let (vs, r₂) := loadVehiclesLoop vCount.toNat r₁ []
      let s₁ := { s₀ with vehicles := vs }
      match readCount r₂ with
      | .error e => .error (e, s₁)
      | .ok (cCount, r₃) =>
        let (cs, r₄) := loadCustomersLoop cCount.toNat r₃ []
        let s₂ := { s₁ with customers := cs }
        match readCount r₄ with
        | .error e => .error (e, s₂)
        | .ok (rCount, r₅) =>
          let (s₃, r₆) := loadRentalsLoop s₂ rCount.toNat r₅
          match readCount r₆ with
          | .error e => .error (e, s₃)
          | .ok (hCount, r₇) =>
            .ok { s₃ with rentalHistory := loadHistoryLoop hCount.toNat r₇ }

/-! ### Reachable manager states -/

/-- One invocation of a mutating public manager operation (the runtime
operations of §4.3; persistence is treated separately). -/
inductive Op
  | addVehicle (v : Vehicle)
  | removeVehicle (regNumber : Str)
  | addCustomer (c : Customer)
  | removeCustomer (id : Str)
  | rentVehicle (regNumber customerId startDate endDate : Str)
  | returnVehicle (regNumber : Str) (newMileage : ℚ)

/-- Run one operation: the state it leaves behind (exceptions leave the
state they escaped from) and the exception message, if any. -/
def applyOp (s : MState) : Op → MState × Option String
  | .addVehicle v =>
      match addVehicle s v with
      | .ok (_, s') => (s', none)
      | .error (e, s') => (s', some e)
  | .removeVehicle reg =>
      match removeVehicle s reg with
      | .ok (_, s') => (s', none)
      | .error (e, s') => (s', some e)
  | .addCustomer c =>
      match addCustomer s c with
      | .ok (_, s') => (s', none)
      | .error (e, s') => (s', some e)
  | .removeCustomer id =>
      match removeCustomer s id with
      | .ok (_, s') => (s', none)
      | .error (e, s') => (s', some e)
  | .rentVehicle reg cid sd ed =>
      match rentVehicle s reg cid sd ed with
      | .ok (_, s') => (s', none)
      | .error (e, s') => (s', some e)
  | .returnVehicle reg m =>
      match returnVehicle s reg m with
      | .ok (_, s') => (s', none)
      | .error (e, s') => (s', some e)

/-- States reachable from a fresh manager by the public operations. -/
inductive Reachable : MState → Prop
  | init : Reachable emptyMState
  | step {s : MState} (op : Op) : Reachable s → Reachable (applyOp s op).1

/-- Whether some active rental references the registration number. -/
def isRented (s : MState) (regNumber : Str) : Bool :=
  s.rentals.any fun r => r.vehReg = regNumber

/-- The structural invariant of a manager state: unique vehicle
registrations, unique customer ids, at most one active rental per
registration, and every rental referencing an existing vehicle and an
existing customer. -/
def Inv (s : MState) : Prop :=
  (s.vehicles.map Vehicle.regNumber).Nodup ∧
  (s.customers.map Customer.id).Nodup ∧
  (s.rentals.map Rental.vehReg).Nodup ∧
  ∀ r ∈ s.rentals,
    (∃ v ∈ s.vehicles, v.regNumber = r.vehReg) ∧ ∃ c ∈ s.customers, c.id = r.custId

instance (s : MState) : Decidable (Inv s) := by
  unfold Inv; infer_instance

/-! ### Basic lemmas about characters and decimal strings -/

theorem charToNat_inj {a b : Char} (h : a.toNat = b.toNat) : a = b :=
  Char.ext (UInt32.toNat.inj h)

theorem digitVal_lt {c : Char} (h : isDigitChar c = true) : digitVal c < 10 := by
  simp [isDigitChar] at h
  simp [digitVal]
  omega

theorem isDigitChar_digitChar {d : Nat} (h : d < 10) :
    isDigitChar (digitChar d) = true := by
  interval_cases d <;> decide

theorem digitVal_digitChar {d : Nat} (h : d < 10) : digitVal (digitChar d) = d := by
  interval_cases d <;> decide

theorem natVal_nil : natVal [] = 0 := rfl

theorem foldl_digit_acc (cs : Str) :
    ∀ acc : Nat, cs.foldl (fun a c => 10 * a + digitVal c) acc
      = acc * 10 ^ cs.length + natVal cs := by
  induction cs with
  | nil => intro acc; simp [natVal]
  | cons c cs ih =>
      intro acc
      rw [List.foldl_cons, ih]
      have h2 : natVal (c :: cs) = (10 * 0 + digitVal c) * 10 ^ cs.length + natVal cs := by
        rw [natVal, List.foldl_cons, ih]
      rw [List.length_cons, h2]
      ring

theorem natVal_cons (c : Char) (cs : Str) :
    natVal (c :: cs) = digitVal c * 10 ^ cs.length + natVal cs := by
  rw [natVal, List.foldl_cons, foldl_digit_acc]
  ring

theorem natVal_lt {cs : Str} (h : ∀ c ∈ cs, isDigitChar c = true) :
    natVal cs < 10 ^ cs.length := by
  induction cs with
  | nil => simp [natVal]
  | cons c cs ih =>
      rw [natVal_cons]
      have hc : digitVal c < 10 := digitVal_lt (h c (by simp))
      have hcs := ih fun x hx => h x (by simp [hx])
      have : digitVal c * 10 ^ cs.length + natVal cs
          < (digitVal c + 1) * 10 ^ cs.length := by nlinarith [pow_pos (by norm_num : (0:ℕ) < 10) cs.length]
      calc digitVal c * 10 ^ cs.length + natVal cs
          < (digitVal c + 1) * 10 ^ cs.length := this
        _ ≤ 10 * 10 ^ cs.length := by nlinarith [pow_pos (by norm_num : (0:ℕ) < 10) cs.length]
        _ = 10 ^ (c :: cs).length := by rw [List.length_cons]; ring

theorem natDigits_all_digit (n : Nat) : ∀ c ∈ natDigits n, isDigitChar c = true := by
  induction n using Nat.strong_induction_on with
  | _ n ih =>
      intro c hc
      rw [natDigits] at hc
      by_cases h : n = 0
      · simp [h] at hc
      · simp only [h, dite_false] at hc
        rcases List.mem_append.mp hc with h1 | h1
        · exact ih (n / 10) (Nat.div_lt_self (Nat.pos_of_ne_zero h) (by norm_num)) c h1
        · simp at h1
          subst h1
          exact isDigitChar_digitChar (Nat.mod_lt n (by norm_num))

theorem natVal_natDigits (n : Nat) : natVal (natDigits n) = n := by
  induction n using Nat.strong_induction_on with
  | _ n ih =>
      rw [natDigits]
      by_cases h : n = 0
      · simp [h, natVal]
      · simp only [h, dite_false]
        have hrec := ih (n / 10) (Nat.div_lt_self (Nat.pos_of_ne_zero h) (by norm_num))
        show natVal (natDigits (n / 10) ++ [digitChar (n % 10)]) = n
        rw [natVal, List.foldl_append]
        show List.foldl _ (natVal (natDigits (n / 10))) _ = n
        rw [hrec]
        simp only [List.foldl_cons, List.foldl_nil]
        rw [digitVal_digitChar (Nat.mod_lt n (by norm_num))]
        omega

theorem natToStr_all_digit (n : Nat) : ∀ c ∈ natToStr n, isDigitChar c = true := by
  intro c hc
  rw [natToStr] at hc
  by_cases h : n = 0
  · simp [h] at hc
    subst hc
    decide
  · simp only [h, ite_false] at hc
    exact natDigits_all_digit n c hc

theorem natVal_natToStr (n : Nat) : natVal (natToStr n) = n := by
  rw [natToStr]
  by_cases h : n = 0
  · subst h; decide
  · simp only [h, ite_false]
    exact natVal_natDigits n

theorem natToStr_ne_nil (n : Nat) : natToStr n ≠ [] := by
  rw [natToStr]
  by_cases h : n = 0
  · simp [h]
  · simp only [h, ite_false]
    intro hc
    rw [natDigits] at hc
    simp [h] at hc

theorem takeWhile_all {l : Str} (h : ∀ c ∈ l, isDigitChar c = true) :
    l.takeWhile isDigitChar = l := by
  induction l with
  | nil => rfl
  | cons c cs ih =>
      rw [List.takeWhile_cons, h c (by simp)]
      simp [ih fun x hx => h x (by simp [hx])]

theorem digitsLead_all {l : Str} (h : ∀ c ∈ l, isDigitChar c = true) :
    digitsLead l = (l, l.dropWhile isDigitChar) := by
  simp [digitsLead, takeWhile_all h]

theorem stoiE_natToStr (n : Nat) : stoiE (natToStr n) = .ok (n : Int) := by
  have hd := natToStr_all_digit n
  have hne := natToStr_ne_nil n
  have hfirst : ∀ c (cs : Str), natToStr n = c :: cs → c ≠ '-' ∧ c ≠ '+' := by
    intro c cs hc
    have : isDigitChar c = true := hd c (by rw [hc]; simp)
    constructor <;> (rintro rfl; simp [isDigitChar] at this)
  rcases hl : natToStr n with _ | ⟨c, cs⟩
  · exact absurd hl hne
  · obtain ⟨h1, h2⟩ := hfirst c cs hl
    rw [stoiE]
    have hdl : digitsLead (c :: cs) = (c :: cs, (c :: cs).dropWhile isDigitChar) := by
      apply digitsLead_all
      rw [← hl]; exact hd
    have hval : natVal (c :: cs) = n := by rw [← hl]; exact natVal_natToStr n
    rw [if_neg h1, if_neg h2, hdl]
    simp [hval]

theorem dropWhile_all {l : Str} (h : ∀ c ∈ l, isDigitChar c = true) :
    l.dropWhile isDigitChar = [] := by
  induction l with
  | nil => rfl
  | cons c cs ih =>
      rw [List.dropWhile_cons, h c (by simp)]
      simp [ih fun x hx => h x (by simp [hx])]

theorem stodE_natToStr (k : Nat) : stodE (natToStr k) = .ok (k : ℚ) := by
  have hd := natToStr_all_digit k
  have hne := natToStr_ne_nil k
  rcases hl : natToStr k with _ | ⟨c, cs⟩
  · exact absurd hl hne
  · have hcd : isDigitChar c = true := hd c (by rw [hl]; simp)
    have h1 : c ≠ '-' := by rintro rfl; simp [isDigitChar] at hcd
    have h2 : c ≠ '+' := by rintro rfl; simp [isDigitChar] at hcd
    have hall : ∀ x ∈ c :: cs, isDigitChar x = true := by rw [← hl]; exact hd
    have hdl : digitsLead (c :: cs) = (c :: cs, []) := by
      rw [digitsLead_all hall, dropWhile_all hall]
    have hval : natVal (c :: cs) = k := by rw [← hl]; exact natVal_natToStr k
    rw [stodE]
    rw [if_neg h1, if_neg h2]
    simp only [hdl, hval]
    rfl

theorem fmtQ_natCast (k : Nat) : fmtQ (k : ℚ) = natToStr k := by
  have h1 : ((k : ℚ)).den = 1 := Rat.den_natCast k
  have h2 : ((k : ℚ)).num = (k : Int) := Rat.num_natCast k
  simp [fmtQ, h1, h2]

theorem stodE_fmtQ_natCast (k : Nat) : stodE (fmtQ (k : ℚ)) = .ok (k : ℚ) := by
  rw [fmtQ_natCast]
  exact stodE_natToStr k

theorem stoiE_intToStr (n : Int) : stoiE (intToStr n) = .ok n := by
  rw [intToStr]
  by_cases h : n < 0
  · rw [if_pos h]
    have hd := natToStr_all_digit n.natAbs
    have hne := natToStr_ne_nil n.natAbs
    rcases hl : natToStr n.natAbs with _ | ⟨c, cs⟩
    · exact absurd hl hne
    · have hall : ∀ x ∈ c :: cs, isDigitChar x = true := by rw [← hl]; exact hd
      have hdl : digitsLead (c :: cs) = (c :: cs, []) := by
        rw [digitsLead_all hall, dropWhile_all hall]
      have hval : natVal (c :: cs) = n.natAbs := by rw [← hl]; exact natVal_natToStr _
      rw [stoiE]
      rw [if_pos rfl]
      simp only [hdl, hval]
      simp only [Except.ok.injEq]
      omega
  · rw [if_neg h]
    rw [stoiE_natToStr]
    have : ((n.toNat : Int)) = n := by omega
    rw [this]

/-! ### Splitting and joining on `;` -/

theorem splitSemiCore_no_semi {f : Str} (hf : ';' ∉ f) (cur : Str) :
    splitSemiCore cur f = [cur.reverse ++ f] := by
  induction f generalizing cur with
  | nil => simp [splitSemiCore]
  | cons c cs ih =>
      have hc : c ≠ ';' := fun h => hf (by simp [h])
      rw [splitSemiCore, if_neg hc, ih (fun h => hf (by simp [h]))]
      simp

theorem splitSemiCore_semi {f : Str} (hf : ';' ∉ f) (cur : Str) (rest : Str) :
    splitSemiCore cur (f ++ ';' :: rest)
      = (cur.reverse ++ f) :: (if rest = [] then [] else splitSemiCore [] rest) := by
  induction f generalizing cur with
  | nil => simp [splitSemiCore]
  | cons c cs ih =>
      have hc : c ≠ ';' := fun h => hf (by simp [h])
      rw [List.cons_append, splitSemiCore, if_neg hc, ih (fun h => hf (by simp [h]))]
      simp

theorem joinSemi_cons (x : Str) (xs : List Str) (hxs : xs ≠ []) :
    joinSemi (x :: xs) = x ++ ';' :: joinSemi xs := by
  match xs with
  | [] => exact absurd rfl hxs
  | y :: ys => rfl

theorem joinSemi_ne_nil {xs : List Str} (hne : xs ≠ []) (hx : ∀ x ∈ xs, x ≠ []) :
    joinSemi xs ≠ [] := by
  match xs with
  | [] => exact absurd rfl hne
  | [x] =>
      have := hx x (by simp)
      simpa [joinSemi] using this
  | x :: y :: ys =>
      rw [joinSemi_cons x (y :: ys) (by simp)]
      have := hx x (by simp)
      rcases x with _ | ⟨a, as⟩
      · simp
      · simp

theorem splitSemi_joinSemi {xs : List Str} (hne : xs ≠ [])
    (hsemi : ∀ x ∈ xs, ';' ∉ x) (hx : ∀ x ∈ xs, x ≠ []) :
    splitSemi (joinSemi xs) = xs := by
  induction xs with
  | nil => exact absurd rfl hne
  | cons x xs ih =>
      match xs with
      | [] =>
          have h1 : ';' ∉ x := hsemi x (by simp)
          have h2 : x ≠ [] := hx x (by simp)
          show splitSemi x = [x]
          rw [splitSemi, if_neg h2, splitSemiCore_no_semi h1]
          simp
      | y :: ys =>
          rw [joinSemi_cons x (y :: ys) (by simp)]
          have h1 : ';' ∉ x := hsemi x (by simp)
          have hjne : joinSemi (y :: ys) ≠ [] :=
            joinSemi_ne_nil (by simp) (fun z hz => hx z (by simp [hz]))
          have hrec : splitSemi (joinSemi (y :: ys)) = y :: ys :=
            ih (by simp) (fun z hz => hsemi z (by simp [hz])) (fun z hz => hx z (by simp [hz]))
          rw [splitSemi]
          rw [if_neg (by
            intro hcontra
            rcases List.append_eq_nil.mp hcontra with ⟨_, h2⟩
            simp at h2)]
          rw [splitSemiCore_semi h1, if_neg hjne]
          rw [splitSemi, if_neg hjne] at hrec
          simp [hrec]

/-! ### Lexicographic comparison of digit strings -/

theorem digitChar_eq_of_val {a b : Char} (ha : isDigitChar a = true)
    (hb : isDigitChar b = true) (h : digitVal a = digitVal b) : a = b := by
  simp [isDigitChar] at ha hb
  simp [digitVal] at h
  exact charToNat_inj (by omega)

theorem lexLt_append (xs : Str) :
    ∀ ys u v : Str, xs.length = ys.length →
      lexLt (xs ++ u) (ys ++ v) = (lexLt xs ys || (xs == ys && lexLt u v)) := by
  induction xs with
  | nil =>
      intro ys u v hlen
      have : ys = [] := List.length_eq_zero.mp hlen.symm
      subst this
      rcases v with _ | ⟨b, bs⟩ <;> simp [lexLt]
  | cons a as ih =>
      intro ys u v hlen
      match ys with
      | [] => simp at hlen
      | b :: bs =>
          simp only [List.length_cons] at hlen
          rw [List.cons_append, List.cons_append]
          show lexLt (a :: (as ++ u)) (b :: (bs ++ v)) = _
          rw [lexLt]
          by_cases hab : a.toNat < b.toNat
          · rw [if_pos hab]
            have hlt : lexLt (a :: as) (b :: bs) = true := by
              rw [lexLt, if_pos hab]
            rw [hlt]
            simp
          · rw [if_neg hab]
            by_cases hba : b.toNat < a.toNat
            · rw [if_pos hba]
              have hlt : lexLt (a :: as) (b :: bs) = false := by
                rw [lexLt, if_neg hab, if_pos hba]
              have hne : (a :: as == b :: bs) = false := by
                have : a ≠ b := fun hcontra => by subst hcontra; omega
                simp [this]
              rw [hlt, hne]
              simp
            · rw [if_neg hba]
              have hab2 : a = b := charToNat_inj (by omega)
              subst hab2
              rw [ih bs u v (by omega)]
              have hlt : lexLt (a :: as) (a :: bs) = lexLt as bs := by
                rw [lexLt, if_neg (lt_irrefl _), if_neg (lt_irrefl _)]
              rw [hlt]
              simp

theorem lexLt_digits (xs : Str) :
    ∀ ys : Str, xs.length = ys.length →
      (∀ c ∈ xs, isDigitChar c = true) → (∀ c ∈ ys, isDigitChar c = true) →
      (lexLt xs ys = true ↔ natVal xs < natVal ys) := by
  induction xs with
  | nil =>
      intro ys hlen _ _
      have : ys = [] := List.length_eq_zero.mp hlen.symm
      subst this
      simp [lexLt, natVal]
  | cons a as ih =>
      intro ys hlen hx hy
      match ys with
      | [] => simp at hlen
      | b :: bs =>
          simp only [List.length_cons] at hlen
          have hlen2 : as.length = bs.length := by omega
          have ha : isDigitChar a = true := hx a (by simp)
          have hb : isDigitChar b = true := hy b (by simp)
          have has : ∀ c ∈ as, isDigitChar c = true := fun c hc => hx c (by simp [hc])
          have hbs : ∀ c ∈ bs, isDigitChar c = true := fun c hc => hy c (by simp [hc])
          have hlta : natVal as < 10 ^ as.length := natVal_lt has
          have hltb : natVal bs < 10 ^ bs.length := natVal_lt hbs
          have hltb2 : natVal bs < 10 ^ as.length := by rw [hlen2]; exact hltb
          rw [lexLt, natVal_cons, natVal_cons, ← hlen2]
          by_cases hab : a.toNat < b.toNat
          · rw [if_pos hab]
            have hdv : digitVal a < digitVal b := by
              simp [isDigitChar] at ha hb
              simp [digitVal]
              omega
            simp only [true_iff]
            calc digitVal a * 10 ^ as.length + natVal as
                < (digitVal a + 1) * 10 ^ as.length := by nlinarith
              _ ≤ digitVal b * 10 ^ as.length := by nlinarith [pow_pos (by norm_num : (0:ℕ) < 10) as.length]
              _ ≤ digitVal b * 10 ^ as.length + natVal bs := by omega
          · rw [if_neg hab]
            by_cases hba : b.toNat < a.toNat
            · rw [if_pos hba]
              have hdv : digitVal b < digitVal a := by
                simp [isDigitChar] at ha hb
                simp [digitVal]
                omega
              have hcalc : digitVal b * 10 ^ as.length + natVal bs
                  < digitVal a * 10 ^ as.length + natVal as := by
                calc digitVal b * 10 ^ as.length + natVal bs
                    < (digitVal b + 1) * 10 ^ as.length := by nlinarith
                  _ ≤ digitVal a * 10 ^ as.length := by nlinarith [pow_pos (by norm_num : (0:ℕ) < 10) as.length]
                  _ ≤ digitVal a * 10 ^ as.length + natVal as := by omega
              exact iff_of_false (by simp) (by omega)
            · rw [if_neg hba]
              have hab2 : a = b := charToNat_inj (by omega)
              subst hab2
              rw [ih bs hlen2 has hbs]
              omega

theorem natVal_inj (xs : Str) :
    ∀ ys : Str, xs.length = ys.length →
      (∀ c ∈ xs, isDigitChar c = true) → (∀ c ∈ ys, isDigitChar c = true) →
      natVal xs = natVal ys → xs = ys := by
  induction xs with
  | nil =>
      intro ys hlen _ _ _
      exact (List.length_eq_zero.mp hlen.symm).symm
  | cons a as ih =>
      intro ys hlen hx hy hval
      match ys with
      | [] => simp at hlen
      | b :: bs =>
          simp only [List.length_cons] at hlen
          have hlen2 : as.length = bs.length := by omega
          have has : ∀ c ∈ as, isDigitChar c = true := fun c hc => hx c (by simp [hc])
          have hbs : ∀ c ∈ bs, isDigitChar c = true := fun c hc => hy c (by simp [hc])
          have hlta : natVal as < 10 ^ as.length := natVal_lt has
          have hltb : natVal bs < 10 ^ bs.length := natVal_lt hbs
          rw [natVal_cons, natVal_cons, ← hlen2] at hval
          have hP : 0 < 10 ^ as.length := pow_pos (by norm_num) _
          have hltb2 : natVal bs < 10 ^ as.length := by rw [hlen2]; exact hltb
          have e1 : (digitVal a * 10 ^ as.length + natVal as) / 10 ^ as.length = digitVal a := by
            rw [mul_comm, Nat.mul_add_div hP, Nat.div_eq_of_lt hlta, add_zero]
          have e2 : (digitVal b * 10 ^ as.length + natVal bs) / 10 ^ as.length = digitVal b := by
            rw [mul_comm, Nat.mul_add_div hP, Nat.div_eq_of_lt hltb2, add_zero]
          have hdv : digitVal a = digitVal b := by rw [← e1, hval, e2]
          rw [hdv] at hval
          have hvals : natVal as = natVal bs := by omega
          have hab : a = b := digitChar_eq_of_val (hx a (by simp)) (hy b (by simp)) hdv
          rw [hab, ih bs hlen2 has hbs hvals]

/-! ### Anatomy of a valid date string -/

theorem shape1 {α : Type} {s : List α} {n : Nat} (h : s.length = n + 1) :
    ∃ c t, s = c :: t ∧ t.length = n := by
  cases s with
  | nil => simp at h
  | cons c t => exact ⟨c, t, rfl, by simpa using h⟩

theorem len10_shape {s : Str} (h : s.length = 10) :
    ∃ c0 c1 c2 c3 c4 c5 c6 c7 c8 c9,
      s = [c0, c1, c2, c3, c4, c5, c6, c7, c8, c9] := by
  obtain ⟨c0, t0, rfl, g0⟩ := shape1 h
  obtain ⟨c1, t1, rfl, g1⟩ := shape1 g0
  obtain ⟨c2, t2, rfl, g2⟩ := shape1 g1
  obtain ⟨c3, t3, rfl, g3⟩ := shape1 g2
  obtain ⟨c4, t4, rfl, g4⟩ := shape1 g3
  obtain ⟨c5, t5, rfl, g5⟩ := shape1 g4
  obtain ⟨c6, t6, rfl, g6⟩ := shape1 g5
  obtain ⟨c7, t7, rfl, g7⟩ := shape1 g6
  obtain ⟨c8, t8, rfl, g8⟩ := shape1 g7
  obtain ⟨c9, t9, rfl, g9⟩ := shape1 g8
  rw [List.length_eq_zero.mp g9]
  exact ⟨c0, c1, c2, c3, c4, c5, c6, c7, c8, c9, rfl⟩

theorem natVal_two (a b : Char) : natVal [a, b] = 10 * digitVal a + digitVal b := by
  rw [natVal_cons, natVal_cons, natVal_nil]
  simp
  ring

theorem natVal_four (a b c d : Char) :
    natVal [a, b, c, d]
      = 1000 * digitVal a + 100 * digitVal b + 10 * digitVal c + digitVal d := by
  rw [natVal_cons, natVal_cons, natVal_cons, natVal_cons, natVal_nil]
  simp
  ring

theorem stoiN_digits {l : Str} (h : ∀ c ∈ l, isDigitChar c = true) : stoiN l = natVal l := by
  rw [stoiN, takeWhile_all h]

/-- Everything `isValidDate s = true` reveals about the string. -/
theorem validDate_destruct {s : Str} (h : isValidDate s = true) :
    ∃ y4 m2 d2 : Str,
      s = y4 ++ '-' :: (m2 ++ '-' :: d2) ∧
      y4.length = 4 ∧ m2.length = 2 ∧ d2.length = 2 ∧
      (∀ c ∈ y4, isDigitChar c = true) ∧ (∀ c ∈ m2, isDigitChar c = true) ∧
      (∀ c ∈ d2, isDigitChar c = true) ∧
      yearOf s = natVal y4 ∧ monthOf s = natVal m2 ∧ dayOf s = natVal d2 ∧
      1 ≤ monthOf s ∧ monthOf s ≤ 12 ∧ 1 ≤ dayOf s ∧
      dayOf s ≤ getDaysInMonth (monthOf s) (yearOf s) := by
  rw [isValidDate] at h
  split_ifs at h with h1 h2 h3 h4 h5
  have hlen : s.length = 10 := by omega
  obtain ⟨c0, c1, c2, c3, c4, c5, c6, c7, c8, c9, rfl⟩ := len10_shape hlen
  have h4' : c4 = '-' := by
    rcases not_or.mp h2 with ⟨ha, _⟩
    rw [not_not] at ha
    simpa using ha
  have h7' : c7 = '-' := by
    rcases not_or.mp h2 with ⟨_, hb⟩
    rw [not_not] at hb
    simpa using hb
  subst h4' h7'
  rw [List.all_eq_true] at h3
  have hdig : ∀ i : Nat, i < 10 → i ≠ 4 → i ≠ 7 →
      isDigitChar (List.getD [c0, c1, c2, c3, '-', c5, c6, '-', c8, c9] i ' ') = true := by
    intro i hi hi4 hi7
    have := h3 i (List.mem_range.mpr hi)
    rcases Bool.or_eq_true_iff.mp this with hh | hh
    · rcases Bool.or_eq_true_iff.mp hh with hh2 | hh2
      · exact absurd (by simpa using hh2) hi4
      · exact absurd (by simpa using hh2) hi7
    · exact hh
  have d0 := hdig 0 (by norm_num) (by norm_num) (by norm_num)
  have d1 := hdig 1 (by norm_num) (by norm_num) (by norm_num)
  have d2h := hdig 2 (by norm_num) (by norm_num) (by norm_num)
  have d3 := hdig 3 (by norm_num) (by norm_num) (by norm_num)
  have d5 := hdig 5 (by norm_num) (by norm_num) (by norm_num)
  have d6 := hdig 6 (by norm_num) (by norm_num) (by norm_num)
  have d8 := hdig 8 (by norm_num) (by norm_num) (by norm_num)
  have d9 := hdig 9 (by norm_num) (by norm_num) (by norm_num)
  simp at d0 d1 d2h d3 d5 d6 d8 d9
  have hy4 : ∀ c ∈ [c0, c1, c2, c3], isDigitChar c = true := by
    intro c hc
    simp only [List.mem_cons, List.not_mem_nil, or_false] at hc
    rcases hc with rfl | rfl | rfl | rfl
    · exact d0
    · exact d1
    · exact d2h
    · exact d3
  have hm2 : ∀ c ∈ [c5, c6], isDigitChar c = true := by
    intro c hc
    simp only [List.mem_cons, List.not_mem_nil, or_false] at hc
    rcases hc with rfl | rfl
    · exact d5
    · exact d6
  have hd2 : ∀ c ∈ [c8, c9], isDigitChar c = true := by
    intro c hc
    simp only [List.mem_cons, List.not_mem_nil, or_false] at hc
    rcases hc with rfl | rfl
    · exact d8
    · exact d9
  refine ⟨[c0, c1, c2, c3], [c5, c6], [c8, c9], by simp, rfl, rfl, rfl, hy4, hm2, hd2,
    ?_, ?_, ?_, ?_, ?_, ?_, ?_⟩
  · exact stoiN_digits hy4
  · exact stoiN_digits hm2
  · exact stoiN_digits hd2
  · omega
  · omega
  · omega
  · omega

/-- Introduction form of `isValidDate`. -/
theorem validDate_intro (c0 c1 c2 c3 c5 c6 c8 c9 : Char)
    (hy4 : ∀ c ∈ [c0, c1, c2, c3], isDigitChar c = true)
    (hm2 : ∀ c ∈ [c5, c6], isDigitChar c = true)
    (hd2 : ∀ c ∈ [c8, c9], isDigitChar c = true)
    (hm : 1 ≤ natVal [c5, c6]) (hm12 : natVal [c5, c6] ≤ 12)
    (hd : 1 ≤ natVal [c8, c9])
    (hdm : natVal [c8, c9] ≤ getDaysInMonth (natVal [c5, c6]) (natVal [c0, c1, c2, c3])) :
    isValidDate [c0, c1, c2, c3, '-', c5, c6, '-', c8, c9] = true := by
  have hyear : yearOf [c0, c1, c2, c3, '-', c5, c6, '-', c8, c9] = natVal [c0, c1, c2, c3] :=
    stoiN_digits hy4
  have hmonth : monthOf [c0, c1, c2, c3, '-', c5, c6, '-', c8, c9] = natVal [c5, c6] :=
    stoiN_digits hm2
  have hday : dayOf [c0, c1, c2, c3, '-', c5, c6, '-', c8, c9] = natVal [c8, c9] :=
    stoiN_digits hd2
  rw [isValidDate]
  rw [if_neg (by simp)]
  rw [if_neg (by simp)]
  rw [if_neg (by
    rw [not_not, List.all_eq_true]
    intro i hi
    have hi10 : i < 10 := List.mem_range.mp hi
    have e0 := hy4 c0 (by simp)
    have e1 := hy4 c1 (by simp)
    have e2 := hy4 c2 (by simp)
    have e3 := hy4 c3 (by simp)
    have e5 := hm2 c5 (by simp)
    have e6 := hm2 c6 (by simp)
    have e8 := hd2 c8 (by simp)
    have e9 := hd2 c9 (by simp)
    interval_cases i <;> simp [e0, e1, e2, e3, e5, e6, e8, e9])]
  rw [if_neg (by rw [hmonth]; omega)]
  rw [if_neg (by rw [hday, hmonth, hyear]; omega)]

/-! ### Calendar arithmetic -/

/-- The year loop of `countTotalDays`. -/
def yearSum (y : Nat) : Nat := ∑ i ∈ Finset.Ico 1 y, if isLeapYear i then 366 else 365

/-- The month loop of `countTotalDays`. -/
def monthSum (m y : Nat) : Nat := ∑ i ∈ Finset.Ico 1 m, getDaysInMonth i y

theorem countTotalDays_eq (s : Str) :
    countTotalDays s = dayOf s + yearSum (yearOf s) + monthSum (monthOf s) (yearOf s) := rfl

theorem getDaysInMonth_pos {m : Nat} (h1 : 1 ≤ m) (h2 : m ≤ 12) (y : Nat) :
    1 ≤ getDaysInMonth m y := by
  interval_cases m <;> simp [getDaysInMonth] <;> split_ifs <;> norm_num

theorem monthSum_succ {m : Nat} (h : 1 ≤ m) (y : Nat) :
    monthSum (m + 1) y = monthSum m y + getDaysInMonth m y :=
  Finset.sum_Ico_succ_top h _

theorem monthSum_mono {m m' : Nat} (h : m ≤ m') (y : Nat) :
    monthSum m y ≤ monthSum m' y :=
  Finset.sum_le_sum_of_subset (Finset.Ico_subset_Ico le_rfl h)

theorem monthSum_top (y : Nat) :
    monthSum 13 y = if isLeapYear y then 366 else 365 := by
  rw [monthSum, Finset.sum_Ico_eq_sum_range]
  by_cases h : isLeapYear y <;>
    simp [Finset.sum_range_succ, getDaysInMonth, h]

theorem yearSum_succ {y : Nat} (h : 1 ≤ y) :
    yearSum (y + 1) = yearSum y + (if isLeapYear y then 366 else 365) :=
  Finset.sum_Ico_succ_top h _

theorem yearSum_mono {y y' : Nat} (h : y ≤ y') : yearSum y ≤ yearSum y' :=
  Finset.sum_le_sum_of_subset (Finset.Ico_subset_Ico le_rfl h)

/-- Strict monotonicity of the day counter on calendar-valid triples, for
years ≥ 1 on the left (the counter treats years 0 and 1 identically, so the
bound is necessary). -/
theorem tripleLt_countLt {y m d y' m' d' : Nat}
    (hy1 : 1 ≤ y)
    (hm : 1 ≤ m) (hm12 : m ≤ 12) (hd : 1 ≤ d) (hdm : d ≤ getDaysInMonth m y)
    (hd' : 1 ≤ d')
    (hlt : y < y' ∨ (y = y' ∧ (m < m' ∨ (m = m' ∧ d < d')))) :
    d + yearSum y + monthSum m y < d' + yearSum y' + monthSum m' y' := by
  have hbound : d + monthSum m y ≤ monthSum (m + 1) y := by
    rw [monthSum_succ hm]
    omega
  rcases hlt with hy | ⟨rfl, hrest⟩
  · have h13 : monthSum (m + 1) y ≤ monthSum 13 y := monthSum_mono (by omega) y
    have htop : d + yearSum y + monthSum m y ≤ yearSum (y + 1) := by
      rw [yearSum_succ hy1, ← monthSum_top y]
      omega
    have hys : yearSum (y + 1) ≤ yearSum y' := yearSum_mono (by omega)
    have : 1 + yearSum y' ≤ d' + yearSum y' + monthSum m' y' := by omega
    omega
  · rcases hrest with hm' | ⟨rfl, hd2⟩
    · have h2 : monthSum (m + 1) y ≤ monthSum m' y := monthSum_mono (by omega) y
      omega
    · omega

/-- Equivalence form on valid triples (years ≥ 1 on both sides). -/
theorem tripleLt_iff_countLt {y m d y' m' d' : Nat}
    (hy1 : 1 ≤ y) (hm : 1 ≤ m) (hm12 : m ≤ 12) (hd : 1 ≤ d)
    (hdm : d ≤ getDaysInMonth m y)
    (hy1' : 1 ≤ y') (hm' : 1 ≤ m') (hm12' : m' ≤ 12) (hd' : 1 ≤ d')
    (hdm' : d' ≤ getDaysInMonth m' y') :
    (y < y' ∨ (y = y' ∧ (m < m' ∨ (m = m' ∧ d < d')))) ↔
      d + yearSum y + monthSum m y < d' + yearSum y' + monthSum m' y' := by
  constructor
  · exact tripleLt_countLt hy1 hm hm12 hd hdm hd'
  · intro hcount
    by_contra hnot
    push_neg at hnot
    rcases Nat.lt_trichotomy y y' with hy | hy | hy
    · exact absurd hy (by omega)
    · subst hy
      rcases Nat.lt_trichotomy m m' with hmm | hmm | hmm
      · have := hnot.2 rfl
        omega
      · subst hmm
        rcases Nat.lt_trichotomy d d' with hdd | hdd | hdd
        · have := (hnot.2 rfl).2 rfl
          omega
        · omega
        · have := tripleLt_countLt hy1 hm' hm12' hd' hdm' hd
            (Or.inr ⟨rfl, Or.inr ⟨rfl, hdd⟩⟩)
          omega
      · have := tripleLt_countLt hy1 hm' hm12' hd' hdm' hd (Or.inr ⟨rfl, Or.inl hmm⟩)
        omega
    · have := @tripleLt_countLt y' m' d' y m d hy1' hm' hm12' hd' hdm' hd (Or.inl hy)
      omega

theorem lexLt_cons_same (c : Char) (u v : Str) : lexLt (c :: u) (c :: v) = lexLt u v := by
  rw [lexLt, if_neg (lt_irrefl _), if_neg (lt_irrefl _)]

/-- Lexicographic order on two valid date strings is the lexicographic order
of their (year, month, day) triples. -/
theorem lexLt_dates {a b : Str} (ha : isValidDate a = true) (hb : isValidDate b = true) :
    lexLt a b = true ↔
      (yearOf a < yearOf b ∨ (yearOf a = yearOf b ∧
        (monthOf a < monthOf b ∨ (monthOf a = monthOf b ∧ dayOf a < dayOf b)))) := by
  obtain ⟨y4a, m2a, d2a, hsa, hl1, hl2, hl3, hg1, hg2, hg3, he1, he2, he3, _, _, _, _⟩ :=
    validDate_destruct ha
  obtain ⟨y4b, m2b, d2b, hsb, hk1, hk2, hk3, hf1, hf2, hf3, hv1, hv2, hv3, _, _, _, _⟩ :=
    validDate_destruct hb
  rw [he1, he2, he3, hv1, hv2, hv3]
  rw [hsa, hsb]
  rw [lexLt_append y4a y4b _ _ (by omega)]
  rw [lexLt_cons_same]
  rw [lexLt_append m2a m2b _ _ (by omega)]
  rw [lexLt_cons_same]
  have hy : lexLt y4a y4b = true ↔ natVal y4a < natVal y4b :=
    lexLt_digits y4a y4b (by omega) hg1 hf1
  have hm : lexLt m2a m2b = true ↔ natVal m2a < natVal m2b :=
    lexLt_digits m2a m2b (by omega) hg2 hf2
  have hd : lexLt d2a d2b = true ↔ natVal d2a < natVal d2b :=
    lexLt_digits d2a d2b (by omega) hg3 hf3
  have hye : (y4a == y4b) = true ↔ natVal y4a = natVal y4b := by
    rw [beq_iff_eq]
    constructor
    · intro hcontra; rw [hcontra]
    · intro hcontra; exact natVal_inj y4a y4b (by omega) hg1 hf1 hcontra
  have hme : (m2a == m2b) = true ↔ natVal m2a = natVal m2b := by
    rw [beq_iff_eq]
    constructor
    · intro hcontra; rw [hcontra]
    · intro hcontra; exact natVal_inj m2a m2b (by omega) hg2 hf2 hcontra
  constructor
  · intro hlt
    rcases Bool.or_eq_true_iff.mp hlt with hh | hh
    · exact Or.inl (hy.mp hh)
    · obtain ⟨hh1, hh2⟩ := Bool.and_eq_true_iff.mp hh
      refine Or.inr ⟨hye.mp hh1, ?_⟩
      rcases Bool.or_eq_true_iff.mp hh2 with hh3 | hh3
      · exact Or.inl (hm.mp hh3)
      · obtain ⟨hh4, hh5⟩ := Bool.and_eq_true_iff.mp hh3
        exact Or.inr ⟨hme.mp hh4, hd.mp hh5⟩
  · intro hlt
    rcases hlt with hh | ⟨hh1, hh⟩
    · exact Bool.or_eq_true_iff.mpr (Or.inl (hy.mpr hh))
    · refine Bool.or_eq_true_iff.mpr (Or.inr (Bool.and_eq_true_iff.mpr ⟨hye.mpr hh1, ?_⟩))
      rcases hh with hh2 | ⟨hh2, hh3⟩
      · exact Bool.or_eq_true_iff.mpr (Or.inl (hm.mpr hh2))
      · exact Bool.or_eq_true_iff.mpr
          (Or.inr (Bool.and_eq_true_iff.mpr ⟨hme.mpr hh2, hd.mpr hh3⟩))

/-- The equivalence of C10 (for years ≥ 1): string order iff day-count
order. -/
theorem lexLt_iff_countLt {a b : Str} (ha : isValidDate a = true) (hb : isValidDate b = true)
    (hya : 1 ≤ yearOf a) (hyb : 1 ≤ yearOf b) :
    (lexLt a b = true ↔ countTotalDays a < countTotalDays b) := by
  obtain ⟨_, _, _, _, _, _, _, _, _, _, _, _, _, r1, r2, r3, r4⟩ := validDate_destruct ha
  obtain ⟨_, _, _, _, _, _, _, _, _, _, _, _, _, q1, q2, q3, q4⟩ := validDate_destruct hb
  rw [lexLt_dates ha hb, countTotalDays_eq, countTotalDays_eq]
  exact tripleLt_iff_countLt hya r1 r2 r3 r4 hyb q1 q2 q3 q4

instance {e a : Type} [DecidableEq e] [DecidableEq a] : DecidableEq (Except e a) := fun x y =>
  match x, y with
  | .ok u, .ok v => if h : u = v then isTrue (by rw [h]) else isFalse (by simp [h])
  | .error u, .error v => if h : u = v then isTrue (by rw [h]) else isFalse (by simp [h])
  | .ok _, .error _ => isFalse (by simp)
  | .error _, .ok _ => isFalse (by simp)

/-! ### Claim C1 -/

/-- C1: for every vehicle variant and every integer `days`:
`CombustionCar.calculateRentCost` and `Motorcycle.calculateRentCost` throw
for `days ≤ 0` and return `baseCost * days` for `days > 0`;
`ElectricCar.calculateRentCost` returns 0 for `days ≤ 0` (no failure) and
`baseCost * days` otherwise; `Truck.calculateRentCost` returns 0 for
`days ≤ 0` and `baseCost * days + cargoCapacity * 0.1 * days` otherwise;
in particular a truck with `baseCost = 100`, `cargoCapacity = 50` and
`days = 2` gives 210, and a combustion car with `baseCost = 100`,
`days = 3` gives 300. -/
theorem claim_C1 (reg brand model : Str) (miles cost consumption battery : ℚ)
    (cat : LicenceCategory) (engine doors cargo : Int) (fuel : FuelType) (days : Int) :
    (days ≤ 0 →
      calculateRentCost ⟨reg, brand, model, miles, cost, cat,
          .combustionCar engine consumption fuel doors⟩ days
        = .error "Rental duration must be positive." ∧
      calculateRentCost ⟨reg, brand, model, miles, cost, cat,
          .motorcycle engine consumption fuel⟩ days
        = .error "Rental duration must be positive." ∧
      calculateRentCost ⟨reg, brand, model, miles, cost, cat,
          .electricCar battery doors⟩ days = .ok 0 ∧
      calculateRentCost ⟨reg, brand, model, miles, cost, cat,
          .truck engine consumption fuel cargo⟩ days = .ok 0) ∧
    (0 < days →
      calculateRentCost ⟨reg, brand, model, miles, cost, cat,
          .combustionCar engine consumption fuel doors⟩ days = .ok (cost * days) ∧
      calculateRentCost ⟨reg, brand, model, miles, cost, cat,
          .motorcycle engine consumption fuel⟩ days = .ok (cost * days) ∧
      calculateRentCost ⟨reg, brand, model, miles, cost, cat,
          .electricCar battery doors⟩ days = .ok (cost * days) ∧
      calculateRentCost ⟨reg, brand, model, miles, cost, cat,
          .truck engine consumption fuel cargo⟩ days
        = .ok (cost * days + (cargo : ℚ) * 0.1 * days)) ∧
    calculateRentCost ⟨"TR1".data, "B".data, "M".data, 0, 100, .C,
        .truck 1000 10 .diesel 50⟩ 2 = .ok 210 ∧
    calculateRentCost ⟨"CC1".data, "B".data, "M".data, 0, 100, .B,
        .combustionCar 1000 10 .gasoline 4⟩ 3 = .ok 300 := by
  refine ⟨?_, ?_, ?_, ?_⟩
  · intro h
    refine ⟨?_, ?_, ?_, ?_⟩ <;> simp only [calculateRentCost] <;> rw [if_pos h]
  · intro h
    have h2 : ¬ days ≤ 0 := by omega
    refine ⟨?_, ?_, ?_, ?_⟩ <;> simp only [calculateRentCost] <;> rw [if_neg h2]
  · simp only [calculateRentCost]
    rw [if_neg (by norm_num)]
    norm_num
  · simp only [calculateRentCost]
    rw [if_neg (by norm_num)]
    norm_num

/-- Witness for C1 at concrete inputs. -/
theorem claim_C1_witness :
    ((0 : Int) ≤ 0 ∧
      calculateRentCost ⟨"R".data, "B".data, "M".data, 0, 5, .B, .electricCar 60 4⟩ 0
        = .ok 0) ∧
    ((0 : Int) < 3 ∧
      calculateRentCost ⟨"R".data, "B".data, "M".data, 0, 5, .B, .combustionCar 900 7 .gasoline 4⟩ 3
        = .ok (5 * 3)) :=
  ⟨⟨le_refl 0,
    ((claim_C1 ("R".data) ("B".data) ("M".data) 0 5 7 60 .B 900 4 9 .gasoline 0).1
      (le_refl 0)).2.2.1⟩,
  ⟨by norm_num,
    ((claim_C1 ("R".data) ("B".data) ("M".data) 0 5 7 60 .B 900 4 9 .gasoline 3).2.1
      (by norm_num)).1⟩⟩

/-! ### Claim C2 -/

/-- C2 counterexample: a `CombustionCar` constructed with base daily cost 0
and mileage −5 (both invalid according to the claim) is accepted: the
`Vehicle` constructor never validates `baseCost` or `mileage`. -/
theorem claim_C2_counterexample :
    combustionCarMk "R1".data "B".data "M".data (-5) 0 .B 1000 10 .gasoline 4
      = .ok ⟨"R1".data, "B".data, "M".data, -5, 0, .B,
          .combustionCar 1000 10 .gasoline 4⟩ := by
  rfl

/-- C2 (amended): for every variant, construction fails precisely on an
empty registration / brand / model, a registration longer than 9
characters, or a non-positive engine size, fuel consumption, battery
capacity, door count or cargo capacity.  A non-positive base daily cost and
a negative mileage are accepted by every constructor (only the setters
`setBaseCost` / `setMileage` reject them), and a failed construction
produces no object at all. -/
theorem claim_C2_amended (reg brand model : Str) (miles cost consumption battery : ℚ)
    (cat : LicenceCategory) (engine doors cargo : Int) (fuel : FuelType) :
    ((∃ e, combustionCarMk reg brand model miles cost cat engine consumption fuel doors
        = .error e) ↔
      (reg = [] ∨ 9 < reg.length ∨ brand = [] ∨ model = [] ∨
        engine ≤ 0 ∨ consumption ≤ 0 ∨ doors ≤ 0)) ∧
    ((∃ e, electricCarMk reg brand model miles cost cat battery doors = .error e) ↔
      (reg = [] ∨ 9 < reg.length ∨ brand = [] ∨ model = [] ∨
        battery ≤ 0 ∨ doors ≤ 0)) ∧
    ((∃ e, truckMk reg brand model miles cost cat engine consumption fuel cargo
        = .error e) ↔
      (reg = [] ∨ 9 < reg.length ∨ brand = [] ∨ model = [] ∨
        engine ≤ 0 ∨ consumption ≤ 0 ∨ cargo ≤ 0)) ∧
    ((∃ e, motorcycleMk reg brand model miles cost cat engine consumption fuel
        = .error e) ↔
      (reg = [] ∨ 9 < reg.length ∨ brand = [] ∨ model = [] ∨
        engine ≤ 0 ∨ consumption ≤ 0)) := by
  refine ⟨?_, ?_, ?_, ?_⟩ <;>
    · simp only [combustionCarMk, electricCarMk, truckMk, motorcycleMk,
        vehicleBaseErr, combustionErr]
      split_ifs <;> simp_all

/-! ### Claim C5 -/

/-- Spec-side Gregorian leap-year rule: "year divisible by 4 and not by
100, or divisible by 400". -/
def specLeapYear (y : Nat) : Prop := (4 ∣ y ∧ ¬ (100 ∣ y)) ∨ 400 ∣ y

instance (y : Nat) : Decidable (specLeapYear y) := by unfold specLeapYear; infer_instance

/-- Spec-side days-in-month table. -/
def specDaysInMonth (m y : Nat) : Nat :=
  if m = 2 then (if specLeapYear y then 29 else 28)
  else if m = 4 ∨ m = 6 ∨ m = 9 ∨ m = 11 then 30
  else 31

/-- Spec-side year value: the four digits at positions 0–3. -/
def yearD (s : Str) : Nat :=
  1000 * digitVal (s.getD 0 ' ') + 100 * digitVal (s.getD 1 ' ')
    + 10 * digitVal (s.getD 2 ' ') + digitVal (s.getD 3 ' ')

/-- Spec-side month value: the two digits at positions 5–6. -/
def monthD (s : Str) : Nat := 10 * digitVal (s.getD 5 ' ') + digitVal (s.getD 6 ' ')

/-- Spec-side day value: the two digits at positions 8–9. -/
def dayD (s : Str) : Nat := 10 * digitVal (s.getD 8 ' ') + digitVal (s.getD 9 ' ')

/-- The date-validity predicate exactly as the spec words it: the
10-character shape `DDDD-DD-DD` (digits everywhere except `-` at positions
4 and 7), month in 1..12, day in 1..daysInMonth(month, year) under the
Gregorian leap-year rule. -/
def specValidDate (s : Str) : Prop :=
  s.length = 10 ∧ s.getD 4 ' ' = '-' ∧ s.getD 7 ' ' = '-' ∧
  (∀ i, i < 10 → i ≠ 4 → i ≠ 7 → isDigitChar (s.getD i ' ') = true) ∧
  1 ≤ monthD s ∧ monthD s ≤ 12 ∧ 1 ≤ dayD s ∧ dayD s ≤ specDaysInMonth (monthD s) (yearD s)

theorem isLeapYear_iff (y : Nat) : isLeapYear y = true ↔ specLeapYear y := by
  rw [isLeapYear, specLeapYear]
  simp [Nat.dvd_iff_mod_eq_zero]

theorem getDaysInMonth_eq_spec {m : Nat} (h1 : 1 ≤ m) (h2 : m ≤ 12) (y : Nat) :
    getDaysInMonth m y = specDaysInMonth m y := by
  by_cases hL : specLeapYear y
  · have hL2 : isLeapYear y = true := (isLeapYear_iff y).mpr hL
    interval_cases m <;> simp [getDaysInMonth, specDaysInMonth, hL, hL2]
  · have hL2 : isLeapYear y = false := by
      rcases Bool.eq_false_or_eq_true (isLeapYear y) with hh | hh
      · exact absurd ((isLeapYear_iff y).mp hh) hL
      · exact hh
    interval_cases m <;> simp [getDaysInMonth, specDaysInMonth, hL, hL2]

theorem shape2 {s : Str} (h : s.length = 2) : ∃ a b, s = [a, b] := by
  obtain ⟨a, t0, rfl, g0⟩ := shape1 h
  obtain ⟨b, t1, rfl, g1⟩ := shape1 g0
  rw [List.length_eq_zero.mp g1]
  exact ⟨a, b, rfl⟩

theorem shape4 {s : Str} (h : s.length = 4) : ∃ a b c d, s = [a, b, c, d] := by
  obtain ⟨a, t0, rfl, g0⟩ := shape1 h
  obtain ⟨b, t1, rfl, g1⟩ := shape1 g0
  obtain ⟨c, t2, rfl, g2⟩ := shape1 g1
  obtain ⟨d, t3, rfl, g3⟩ := shape1 g2
  rw [List.length_eq_zero.mp g3]
  exact ⟨a, b, c, d, rfl⟩

/-- C5: `isValidDate` accepts exactly the strings of shape `DDDD-DD-DD`
whose month is in 1..12 and whose day is in 1..daysInMonth(month, year)
under the Gregorian leap-year rule; in particular `2024-02-29` is valid
while `2023-02-29`, `2024-13-01` and `2024-02-30` are not. -/
theorem claim_C5 :
    (∀ s : Str, isValidDate s = true ↔ specValidDate s) ∧
    isValidDate "2024-02-29".data = true ∧
    isValidDate "2023-02-29".data = false ∧
    isValidDate "2024-13-01".data = false ∧
    isValidDate "2024-02-30".data = false := by
  refine ⟨?_, by decide, by decide, by decide, by decide⟩
  intro s
  constructor
  · intro h
    obtain ⟨y4, m2, d2, hs, hl1, hl2, hl3, hg1, hg2, hg3, he1, he2, he3, hr1, hr2, hr3, hr4⟩ :=
      validDate_destruct h
    obtain ⟨a0, a1, a2, a3, rfl⟩ := shape4 hl1
    obtain ⟨b0, b1, rfl⟩ := shape2 hl2
    obtain ⟨c0, c1, rfl⟩ := shape2 hl3
    subst hs
    simp only [List.append_assoc, List.cons_append, List.nil_append]
      at h hr1 hr2 hr3 hr4 he1 he2 he3 ⊢
    have hyv : yearD [a0, a1, a2, a3, '-', b0, b1, '-', c0, c1] = natVal [a0, a1, a2, a3] := by
      rw [yearD, natVal_four]
      simp [List.getD]
    have hmv : monthD [a0, a1, a2, a3, '-', b0, b1, '-', c0, c1] = natVal [b0, b1] := by
      rw [monthD, natVal_two]
      simp [List.getD]
    have hdv : dayD [a0, a1, a2, a3, '-', b0, b1, '-', c0, c1] = natVal [c0, c1] := by
      rw [dayD, natVal_two]
      simp [List.getD]
    refine ⟨by simp, by simp, by simp, ?_, ?_, ?_, ?_, ?_⟩
    · intro i hi hi4 hi7
      have e0 := hg1 a0 (by simp)
      have e1 := hg1 a1 (by simp)
      have e2 := hg1 a2 (by simp)
      have e3 := hg1 a3 (by simp)
      have e5 := hg2 b0 (by simp)
      have e6 := hg2 b1 (by simp)
      have e8 := hg3 c0 (by simp)
      have e9 := hg3 c1 (by simp)
      interval_cases i <;> simp_all
    · rw [hmv, ← he2]; exact hr1
    · rw [hmv, ← he2]; exact hr2
    · rw [hdv, ← he3]; exact hr3
    · rw [hdv, hmv, hyv, ← he1, ← he2, ← he3]
      rw [← getDaysInMonth_eq_spec hr1 hr2]
      exact hr4
  · rintro ⟨hlen, hd4, hd7, hdig, hm1, hm2, hd1, hd2⟩
    obtain ⟨c0, c1, c2, c3, c4, c5, c6, c7, c8, c9, rfl⟩ := len10_shape hlen
    have h4' : c4 = '-' := by simpa using hd4
    have h7' : c7 = '-' := by simpa using hd7
    subst h4' h7'
    have e0 := hdig 0 (by norm_num) (by norm_num) (by norm_num)
    have e1 := hdig 1 (by norm_num) (by norm_num) (by norm_num)
    have e2 := hdig 2 (by norm_num) (by norm_num) (by norm_num)
    have e3 := hdig 3 (by norm_num) (by norm_num) (by norm_num)
    have e5 := hdig 5 (by norm_num) (by norm_num) (by norm_num)
    have e6 := hdig 6 (by norm_num) (by norm_num) (by norm_num)
    have e8 := hdig 8 (by norm_num) (by norm_num) (by norm_num)
    have e9 := hdig 9 (by norm_num) (by norm_num) (by norm_num)
    simp only [List.getD] at e0 e1 e2 e3 e5 e6 e8 e9
    simp at e0 e1 e2 e3 e5 e6 e8 e9
    have hy4 : ∀ c ∈ [c0, c1, c2, c3], isDigitChar c = true := by
      intro c hc
      simp only [List.mem_cons, List.not_mem_nil, or_false] at hc
      rcases hc with rfl | rfl | rfl | rfl
      · exact e0
      · exact e1
      · exact e2
      · exact e3
    have hm2d : ∀ c ∈ [c5, c6], isDigitChar c = true := by
      intro c hc
      simp only [List.mem_cons, List.not_mem_nil, or_false] at hc
      rcases hc with rfl | rfl
      · exact e5
      · exact e6
    have hd2d : ∀ c ∈ [c8, c9], isDigitChar c = true := by
      intro c hc
      simp only [List.mem_cons, List.not_mem_nil, or_false] at hc
      rcases hc with rfl | rfl
      · exact e8
      · exact e9
    have hmvv : monthD [c0, c1, c2, c3, '-', c5, c6, '-', c8, c9] = natVal [c5, c6] := by
      rw [monthD, natVal_two]
      simp [List.getD]
    have hdvv : dayD [c0, c1, c2, c3, '-', c5, c6, '-', c8, c9] = natVal [c8, c9] := by
      rw [dayD, natVal_two]
      simp [List.getD]
    have hyvv : yearD [c0, c1, c2, c3, '-', c5, c6, '-', c8, c9] = natVal [c0, c1, c2, c3] := by
      rw [yearD, natVal_four]
      simp [List.getD]
    refine validDate_intro c0 c1 c2 c3 c5 c6 c8 c9 hy4 hm2d hd2d ?_ ?_ ?_ ?_
    · rw [← hmvv]; exact hm1
    · rw [← hmvv]; exact hm2
    · rw [← hdvv]; exact hd1
    · rw [getDaysInMonth_eq_spec (by rw [← hmvv]; exact hm1) (by rw [← hmvv]; exact hm2)]
      rw [← hmvv, ← hdvv, ← hyvv]
      exact hd2

/-! ### Claims C6 and C10 -/

theorem validDate_len {s : Str} (h : isValidDate s = true) : s.length = 10 := by
  rw [isValidDate] at h
  split_ifs at h with h1
  omega

theorem validDate_ne_nil {s : Str} (h : isValidDate s = true) : s ≠ [] := by
  have := validDate_len h
  intro hc
  subst hc
  simp at this

/-- What a successful `Rental` construction guarantees. -/
theorem rentalMk_ok {vehReg custId startDate endDate : Str} {r : Rental}
    (h : rentalMk vehReg custId startDate endDate = .ok r) :
    isValidDate startDate = true ∧ isValidDate endDate = true ∧
    lexLt startDate endDate = true ∧ r = ⟨vehReg, custId, startDate, endDate⟩ := by
  rw [rentalMk] at h
  split_ifs at h with h1 h2 h3
  refine ⟨h1, h2, ?_, by
    simpa using h.symm⟩
  rw [lexLe] at h3
  simp at h3
  exact h3

theorem getRentalDays_eq {r : Rental} (h1 : r.startDate ≠ []) (h2 : r.endDate ≠ []) :
    getRentalDays r = max 1 ((countTotalDays r.endDate : Int) - countTotalDays r.startDate) := by
  rw [getRentalDays]
  rw [if_neg (by simp [h1, h2])]
  show (if (countTotalDays r.endDate : Int) - countTotalDays r.startDate < 1 then 1
      else (countTotalDays r.endDate : Int) - countTotalDays r.startDate) = _
  split_ifs with h <;> omega

set_option maxRecDepth 20000 in
/-- C6: constructing a `Rental` with `end <= start` (string comparison) is
rejected; a constructed rental's duration is
`max(1, daysSinceEpoch(end) - daysSinceEpoch(start))` where
`daysSinceEpoch` (= `countTotalDays`) adds the day of month, 365/366 per
complete year before the year, and the days of the complete months before
the month; start `2024-01-01` / end `2024-01-02` gives duration 1. -/
theorem claim_C6 :
    (∀ vehReg custId startDate endDate : Str, lexLe endDate startDate = true →
      ∃ e, rentalMk vehReg custId startDate endDate = .error e) ∧
    (∀ vehReg custId startDate endDate : Str, ∀ r : Rental,
      rentalMk vehReg custId startDate endDate = .ok r →
      getRentalDays r = max 1 ((countTotalDays endDate : Int) - countTotalDays startDate)) ∧
    rentalMk "V1".data "C1".data "2024-01-01".data "2024-01-02".data
      = .ok ⟨"V1".data, "C1".data, "2024-01-01".data, "2024-01-02".data⟩ ∧
    getRentalDays ⟨"V1".data, "C1".data, "2024-01-01".data, "2024-01-02".data⟩ = 1 ∧
    (∃ e, rentalMk "V1".data "C1".data "2024-01-01".data "2024-01-01".data = .error e) := by
  refine ⟨?_, ?_, by decide, ?_, ?_⟩
  · intro vehReg custId startDate endDate hle
    rw [rentalMk]
    split_ifs with h1 h2
    · exact ⟨_, rfl⟩
    · exact ⟨_, rfl⟩
    · exact ⟨_, rfl⟩
  · intro vehReg custId startDate endDate r h
    obtain ⟨h1, h2, h3, rfl⟩ := rentalMk_ok h
    exact getRentalDays_eq (validDate_ne_nil h1) (validDate_ne_nil h2)
  · have hne1 : ("2024-01-01".data : Str) ≠ [] := by decide
    have hne2 : ("2024-01-02".data : Str) ≠ [] := by decide
    rw [getRentalDays_eq hne1 hne2]
    dsimp only
    rw [countTotalDays_eq, countTotalDays_eq]
    have e1 : yearOf "2024-01-02".data = 2024 := by decide
    have e2 : yearOf "2024-01-01".data = 2024 := by decide
    have e3 : monthOf "2024-01-02".data = 1 := by decide
    have e4 : monthOf "2024-01-01".data = 1 := by decide
    have e5 : dayOf "2024-01-02".data = 2 := by decide
    have e6 : dayOf "2024-01-01".data = 1 := by decide
    rw [e1, e2, e3, e4, e5, e6]
    omega
  · exact ⟨"End date must be later than start date.", by decide⟩

set_option maxRecDepth 20000 in
/-- Witness for C6's hypotheses at concrete inputs. -/
theorem claim_C6_witness :
    (lexLe "0002-01-02".data "0002-01-05".data = true ∧
      ∃ e, rentalMk "V1".data "C1".data "0002-01-05".data "0002-01-02".data = .error e) ∧
    (rentalMk "V1".data "C1".data "0002-01-01".data "0002-01-03".data
        = .ok ⟨"V1".data, "C1".data, "0002-01-01".data, "0002-01-03".data⟩ ∧
      getRentalDays ⟨"V1".data, "C1".data, "0002-01-01".data, "0002-01-03".data⟩
        = max 1 ((countTotalDays "0002-01-03".data : Int)
            - countTotalDays "0002-01-01".data)) :=
  ⟨⟨by decide, claim_C6.1 ("V1".data) ("C1".data) ("0002-01-05".data) ("0002-01-02".data)
      (by decide)⟩,
   ⟨by decide, claim_C6.2.1 ("V1".data) ("C1".data) ("0002-01-01".data) ("0002-01-03".data)
      ⟨"V1".data, "C1".data, "0002-01-01".data, "0002-01-03".data⟩ (by decide)⟩⟩

set_option maxRecDepth 20000 in
/-- C10 counterexample: `0000-01-01` and `0001-01-01` are both accepted by
`isValidDate` and are in strict lexicographic order, yet `countTotalDays`
gives both the value 1 (the year loop starts at 1, so year 0 contributes
nothing): the claimed equivalence between string order and day-count order
fails. -/
theorem claim_C10_counterexample :
    isValidDate "0000-01-01".data = true ∧
    isValidDate "0001-01-01".data = true ∧
    lexLt "0000-01-01".data "0001-01-01".data = true ∧
    ¬ (countTotalDays "0000-01-01".data < countTotalDays "0001-01-01".data) := by
  refine ⟨by decide, by decide, by decide, by decide⟩

/-- C10 (amended): for calendar-valid dates with year ≥ 1, lexicographic
string order agrees with `countTotalDays` order, and every constructed
rental whose dates have year ≥ 1 has `getRentalDays` equal to the exact
positive day difference (the `max(1, ·)` clamp never decides).  For year
0 the counter collapses years 0000 and 0001, which is what the
counterexample exhibits. -/
theorem claim_C10_amended :
    (∀ a b : Str, isValidDate a = true → isValidDate b = true →
      1 ≤ yearOf a → 1 ≤ yearOf b →
      (lexLt a b = true ↔ countTotalDays a < countTotalDays b)) ∧
    (∀ vehReg custId a b : Str, ∀ r : Rental, rentalMk vehReg custId a b = .ok r →
      1 ≤ yearOf a → 1 ≤ yearOf b →
      countTotalDays a < countTotalDays b ∧
      getRentalDays r = (countTotalDays b : Int) - countTotalDays a) := by
  constructor
  · intro a b ha hb hya hyb
    exact lexLt_iff_countLt ha hb hya hyb
  · intro vehReg custId a b r h hya hyb
    obtain ⟨h1, h2, h3, rfl⟩ := rentalMk_ok h
    have hcount : countTotalDays a < countTotalDays b :=
      (lexLt_iff_countLt h1 h2 hya hyb).mp h3
    refine ⟨hcount, ?_⟩
    rw [getRentalDays_eq (validDate_ne_nil h1) (validDate_ne_nil h2)]
    dsimp only
    omega

set_option maxRecDepth 20000 in
/-- Witness for C10's amended theorem at concrete inputs. -/
theorem claim_C10_witness :
    (isValidDate "0002-01-01".data = true ∧ isValidDate "0002-02-01".data = true ∧
      1 ≤ yearOf "0002-01-01".data ∧ 1 ≤ yearOf "0002-02-01".data ∧
      (lexLt "0002-01-01".data "0002-02-01".data = true ↔
        countTotalDays "0002-01-01".data < countTotalDays "0002-02-01".data)) ∧
    (rentalMk "V1".data "C1".data "0002-01-01".data "0002-02-01".data
        = .ok ⟨"V1".data, "C1".data, "0002-01-01".data, "0002-02-01".data⟩ ∧
      countTotalDays "0002-01-01".data < countTotalDays "0002-02-01".data ∧
      getRentalDays ⟨"V1".data, "C1".data, "0002-01-01".data, "0002-02-01".data⟩
        = (countTotalDays "0002-02-01".data : Int) - countTotalDays "0002-01-01".data) :=
  ⟨⟨by decide, by decide, by decide, by decide,
    claim_C10_amended.1 ("0002-01-01".data) ("0002-02-01".data)
      (by decide) (by decide) (by decide) (by decide)⟩,
   ⟨by decide,
    claim_C10_amended.2 ("V1".data) ("C1".data) ("0002-01-01".data) ("0002-02-01".data)
      ⟨"V1".data, "C1".data, "0002-01-01".data, "0002-02-01".data⟩
      (by decide) (by decide) (by decide)⟩⟩

/-! ### Claim C7 -/

/-- C7: conflict failures leave the manager exactly unchanged: adding a
vehicle / customer with a duplicate registration / id fails with the state
(and hence every collection size) unchanged, and removing a vehicle /
customer referenced by an active rental fails without deleting anything.
(The model's error values carry the manager state at the moment the C++
exception escapes; all four operations throw before any mutation.) -/
theorem claim_C7 (s : MState) (v : Vehicle) (c : Customer) (reg id : Str) :
    ((∃ w ∈ s.vehicles, w.regNumber = v.regNumber) →
      addVehicle s v = .error ("Vehicle with this registration number already exists.", s)) ∧
    ((∃ d ∈ s.customers, d.id = c.id) →
      addCustomer s c = .error ("Customer with this ID already exists.", s)) ∧
    ((∃ r ∈ s.rentals, r.vehReg = reg) →
      removeVehicle s reg = .error ("Cannot remove vehicle that is currently rented.", s)) ∧
    ((∃ r ∈ s.rentals, r.custId = id) →
      removeCustomer s id = .error ("Cannot remove customer who has active rentals.", s)) := by
  refine ⟨?_, ?_, ?_, ?_⟩
  · rintro ⟨w, hw, he⟩
    rw [addVehicle, if_neg (by
      rw [isRegNumberUnique]
      simp only [List.all_eq_true, not_forall]
      exact ⟨w, hw, by simp [he]⟩)]
  · rintro ⟨d, hd, he⟩
    rw [addCustomer, if_neg (by
      rw [isCustomerIdUnique]
      simp only [List.all_eq_true, not_forall]
      exact ⟨d, hd, by simp [he]⟩)]
  · rintro ⟨r, hr, he⟩
    rw [removeVehicle, if_pos (by
      rw [List.any_eq_true]
      exact ⟨r, hr, by simp [he]⟩)]
  · rintro ⟨r, hr, he⟩
    rw [removeCustomer, if_pos (by
      rw [List.any_eq_true]
      exact ⟨r, hr, by simp [he]⟩)]

/-- Witness for C7 on a concrete one-vehicle, one-customer,
one-active-rental state. -/
theorem claim_C7_witness :
    (∃ w ∈ (MState.mk
        [⟨"R1".data, "B".data, "M".data, 0, 100, .B, .motorcycle 600 5 .gasoline⟩]
        [⟨"C1".data, "N".data, "A".data, .privateCustomer⟩]
        [⟨"R1".data, "C1".data, "0002-01-01".data, "0002-01-03".data⟩]
        []).vehicles,
      w.regNumber = Vehicle.regNumber
        ⟨"R1".data, "X".data, "Y".data, 0, 50, .B, .electricCar 60 4⟩) ∧
    addVehicle (MState.mk
        [⟨"R1".data, "B".data, "M".data, 0, 100, .B, .motorcycle 600 5 .gasoline⟩]
        [⟨"C1".data, "N".data, "A".data, .privateCustomer⟩]
        [⟨"R1".data, "C1".data, "0002-01-01".data, "0002-01-03".data⟩]
        [])
      ⟨"R1".data, "X".data, "Y".data, 0, 50, .B, .electricCar 60 4⟩
      = .error ("Vehicle with this registration number already exists.",
          MState.mk
            [⟨"R1".data, "B".data, "M".data, 0, 100, .B, .motorcycle 600 5 .gasoline⟩]
            [⟨"C1".data, "N".data, "A".data, .privateCustomer⟩]
            [⟨"R1".data, "C1".data, "0002-01-01".data, "0002-01-03".data⟩]
            []) :=
  ⟨by decide,
    (claim_C7 (MState.mk
        [⟨"R1".data, "B".data, "M".data, 0, 100, .B, .motorcycle 600 5 .gasoline⟩]
        [⟨"C1".data, "N".data, "A".data, .privateCustomer⟩]
        [⟨"R1".data, "C1".data, "0002-01-01".data, "0002-01-03".data⟩]
        [])
      ⟨"R1".data, "X".data, "Y".data, 0, 50, .B, .electricCar 60 4⟩
      ⟨"C1".data, "N".data, "A".data, .privateCustomer⟩
      ("R1".data) ("C1".data)).1 (by decide)⟩

/-! ### Claim C3 -/

theorem getVehicleIn_some {s : MState} {reg : Str} {v : Vehicle}
    (h : getVehicleIn s reg = some v) : v ∈ s.vehicles ∧ v.regNumber = reg := by
  rw [getVehicleIn] at h
  refine ⟨List.mem_of_find?_eq_some h, ?_⟩
  have := List.find?_some h
  simpa using this

theorem getCustomerIn_some {s : MState} {id : Str} {c : Customer}
    (h : getCustomerIn s id = some c) : c ∈ s.customers ∧ c.id = id := by
  rw [getCustomerIn] at h
  refine ⟨List.mem_of_find?_eq_some h, ?_⟩
  have := List.find?_some h
  simpa using this

theorem eraseRental_no_ref {rs : List Rental} {reg : Str}
    (h : (rs.map Rental.vehReg).Nodup) (hmem : ∃ r ∈ rs, r.vehReg = reg) :
    ∀ q ∈ eraseRental rs reg, q.vehReg ≠ reg := by
  induction rs with
  | nil => simp [eraseRental]
  | cons r rs ih =>
      rw [List.map_cons, List.nodup_cons] at h
      rw [eraseRental]
      by_cases hr : r.vehReg = reg
      · rw [if_pos hr]
        intro q hq hcontra
        refine h.1 ?_
        have hmm : q.vehReg ∈ List.map Rental.vehReg rs := List.mem_map_of_mem Rental.vehReg hq
        rw [hcontra, ← hr] at hmm
        exact hmm
      · rw [if_neg hr]
        intro q hq
        rcases List.mem_cons.mp hq with rfl | hq2
        · exact hr
        · rcases hmem with ⟨r2, hr2, he2⟩
          rcases List.mem_cons.mp hr2 with rfl | hr3
          · exact absurd he2 hr
          · exact ih h.2 ⟨r2, hr3, he2⟩ q hq2

theorem mem_replaceVehicle {vs : List Vehicle} {reg : Str} {v' : Vehicle}
    (h : ∃ v ∈ vs, v.regNumber = reg) : v' ∈ replaceVehicle vs reg v' := by
  induction vs with
  | nil => simp at h
  | cons v vs ih =>
      rw [replaceVehicle]
      by_cases hv : v.regNumber = reg
      · rw [if_pos hv]
        simp
      · rw [if_neg hv]
        rcases h with ⟨w, hw, he⟩
        rcases List.mem_cons.mp hw with rfl | hw2
        · exact absurd he hv
        · exact List.mem_cons_of_mem v (ih ⟨w, hw2, he⟩)

theorem getCustomerIn_vehicles (vs : List Vehicle) (s : MState) (id : Str) :
    getCustomerIn { s with vehicles := vs } id = getCustomerIn s id := rfl

theorem setMileage_ok {v : Vehicle} {m : ℚ} {v' : Vehicle} (h : setMileage v m = .ok v') :
    ¬ m < 0 ∧ ¬ m < v.mileage ∧ v' = { v with mileage := m } := by
  rw [setMileage] at h
  split_ifs at h with h1 h2
  exact ⟨h1, h2, by simpa using h.symm⟩

/-- C3: `returnVehicle(reg, newMileage)` fails (state unchanged) when no
active rental references `reg`, and when `newMileage` is below the
vehicle's current mileage; on success it sets the vehicle's mileage to
`newMileage`, removes that rental (and only it) from the active set,
appends exactly one history line `Brand Model (Reg);Name (Id);Start;End;Cost`,
returns the rental's total cost, and `findAvailableVehicles` includes the
vehicle again.  The `Inv` hypothesis is the structural invariant every
reachable manager state enjoys. -/
theorem claim_C3 (s : MState) (reg : Str) (m : ℚ) (hInv : Inv s) :
    ((∀ r ∈ s.rentals, r.vehReg ≠ reg) →
      returnVehicle s reg m = .error ("Rental not found for this vehicle.", s)) ∧
    ((∃ r ∈ s.rentals, r.vehReg = reg) →
      ∀ v : Vehicle, getVehicleIn s reg = some v → m < v.mileage →
      ∃ e, returnVehicle s reg m = .error (e, s)) ∧
    (∀ cost : ℚ, ∀ s' : MState, returnVehicle s reg m = .ok (cost, s') →
      ∃ r v c, s.rentals.find? (fun q => q.vehReg = reg) = some r ∧
        getVehicleIn s reg = some v ∧
        getCustomerIn s r.custId = some c ∧
        s'.vehicles = replaceVehicle s.vehicles reg { v with mileage := m } ∧
        s'.customers = s.customers ∧
        s'.rentals = eraseRental s.rentals reg ∧
        (∀ q ∈ s'.rentals, q.vehReg ≠ reg) ∧
        s'.rentalHistory
          = s.rentalHistory ++ [historyLine { v with mileage := m } c r cost] ∧
        calculateRentCost { v with mileage := m } (getRentalDays r) = .ok cost ∧
        { v with mileage := m } ∈ findAvailableVehicles s') := by
  refine ⟨?_, ?_, ?_⟩
  · intro hno
    rw [returnVehicle]
    have hfe : s.rentals.find? (fun q => q.vehReg = reg) = none := by
      rw [List.find?_eq_none]
      intro q hq
      simp [hno q hq]
    rw [hfe]
  · rintro ⟨r, hr, he⟩ v hv hm
    rw [returnVehicle]
    have hsome : (s.rentals.find? (fun q => q.vehReg = reg)).isSome = true := by
      rw [List.find?_isSome]
      exact ⟨r, hr, by simp [he]⟩
    rcases hfo : s.rentals.find? (fun q => q.vehReg = reg) with _ | r0
    · rw [hfo] at hsome
      simp at hsome
    · have hreg0 : r0.vehReg = reg := by simpa using List.find?_some hfo
      simp only [hfo]
      rw [hreg0]
      simp only [hv]
      by_cases hneg : m < 0
      · have hsm : setMileage v m = .error "Mileage cannot be negative." := by
          simp [setMileage, hneg]
        simp only [hsm]
        exact ⟨_, rfl⟩
      · have hsm : setMileage v m
            = .error "New mileage cannot be lower than current mileage." := by
          simp [setMileage, hneg, hm]
        simp only [hsm]
        exact ⟨_, rfl⟩
  · intro cost s' hok
    rw [returnVehicle] at hok
    rcases hfo : s.rentals.find? (fun q => q.vehReg = reg) with _ | r0 <;>
      simp only [hfo] at hok
    · exact Except.noConfusion hok
    have hreg0 : r0.vehReg = reg := by simpa using List.find?_some hfo
    rw [hreg0] at hok
    rcases hgv : getVehicleIn s reg with _ | v <;> simp only [hgv] at hok
    · exact Except.noConfusion hok
    rcases hsm : setMileage v m with e0 | v' <;> simp only [hsm] at hok
    · exact Except.noConfusion hok
    rw [getCustomerIn_vehicles] at hok
    rcases hgc : getCustomerIn s r0.custId with _ | c <;> simp only [hgc] at hok
    · exact Except.noConfusion hok
    rcases hcc : calculateTotalCost r0 v' with e0 | cost0 <;> simp only [hcc] at hok
    · exact Except.noConfusion hok
    simp only [Except.ok.injEq, Prod.mk.injEq] at hok
    obtain ⟨rfl, rfl⟩ := hok
    obtain ⟨hneg, hlow, rfl⟩ := setMileage_ok hsm
    have hvreg : v.regNumber = reg := (getVehicleIn_some hgv).2
    have hnoref : ∀ q ∈ eraseRental s.rentals reg, q.vehReg ≠ reg :=
      eraseRental_no_ref hInv.2.2.1 ⟨r0, List.mem_of_find?_eq_some hfo, hreg0⟩
    refine ⟨r0, v, c, hfo, rfl, hgc, rfl, rfl, rfl, hnoref, rfl, ?_, ?_⟩
    · rw [calculateTotalCost] at hcc
      exact hcc
    · rw [findAvailableVehicles, List.mem_filter]
      refine ⟨mem_replaceVehicle ⟨v, (getVehicleIn_some hgv).1, hvreg⟩, ?_⟩
      simp only [decide_eq_true_eq]
      intro hcontra
      rw [List.any_eq_true] at hcontra
      obtain ⟨q, hq, hpq⟩ := hcontra
      simp only [decide_eq_true_eq] at hpq
      exact hnoref q hq (hpq.trans hvreg)

/-- Witness for C3 on a concrete invariant-satisfying state: returning a
vehicle that is not rented fails with the state unchanged. -/
theorem claim_C3_witness :
    Inv (MState.mk
        [⟨"R1".data, "B".data, "M".data, 0, 100, .B, .motorcycle 600 5 .gasoline⟩]
        [⟨"C1".data, "N".data, "A".data, .privateCustomer⟩]
        [⟨"R1".data, "C1".data, "0002-01-01".data, "0002-01-03".data⟩]
        []) ∧
    (∀ r ∈ (MState.mk
        [⟨"R1".data, "B".data, "M".data, 0, 100, .B, .motorcycle 600 5 .gasoline⟩]
        [⟨"C1".data, "N".data, "A".data, .privateCustomer⟩]
        [⟨"R1".data, "C1".data, "0002-01-01".data, "0002-01-03".data⟩]
        []).rentals, r.vehReg ≠ "R2".data) ∧
    returnVehicle (MState.mk
        [⟨"R1".data, "B".data, "M".data, 0, 100, .B, .motorcycle 600 5 .gasoline⟩]
        [⟨"C1".data, "N".data, "A".data, .privateCustomer⟩]
        [⟨"R1".data, "C1".data, "0002-01-01".data, "0002-01-03".data⟩]
        []) "R2".data 5
      = .error ("Rental not found for this vehicle.", MState.mk
          [⟨"R1".data, "B".data, "M".data, 0, 100, .B, .motorcycle 600 5 .gasoline⟩]
          [⟨"C1".data, "N".data, "A".data, .privateCustomer⟩]
          [⟨"R1".data, "C1".data, "0002-01-01".data, "0002-01-03".data⟩]
          []) :=
  ⟨by decide, by decide,
    (claim_C3 (MState.mk
        [⟨"R1".data, "B".data, "M".data, 0, 100, .B, .motorcycle 600 5 .gasoline⟩]
        [⟨"C1".data, "N".data, "A".data, .privateCustomer⟩]
        [⟨"R1".data, "C1".data, "0002-01-01".data, "0002-01-03".data⟩]
        []) ("R2".data) 5 (by decide)).1 (by decide)⟩

/-! ### Claim C4 -/

theorem replaceVehicle_map {vs : List Vehicle} {reg : Str} {v' : Vehicle}
    (h : v'.regNumber = reg) :
    (replaceVehicle vs reg v').map Vehicle.regNumber = vs.map Vehicle.regNumber := by
  induction vs with
  | nil => rfl
  | cons v vs ih =>
      rw [replaceVehicle]
      by_cases hv : v.regNumber = reg
      · rw [if_pos hv]
        simp [h, hv]
      · rw [if_neg hv]
        simp [ih]

theorem eraseRental_sublist (rs : List Rental) (reg : Str) :
    (eraseRental rs reg).Sublist rs := by
  induction rs with
  | nil => simp [eraseRental]
  | cons r rs ih =>
      rw [eraseRental]
      by_cases hr : r.vehReg = reg
      · rw [if_pos hr]
        exact List.sublist_cons_of_sublist r (List.Sublist.refl rs)
      · rw [if_neg hr]
        exact List.Sublist.cons₂ r ih

theorem mem_eraseRental_of_ne {q : Rental} {rs : List Rental} {reg : Str}
    (hq : q ∈ rs) (hne : q.vehReg ≠ reg) : q ∈ eraseRental rs reg := by
  induction rs with
  | nil => simp at hq
  | cons r rs ih =>
      rw [eraseRental]
      by_cases hr : r.vehReg = reg
      · rw [if_pos hr]
        rcases List.mem_cons.mp hq with rfl | hq2
        · exact absurd hr hne
        · exact hq2
      · rw [if_neg hr]
        rcases List.mem_cons.mp hq with rfl | hq2
        · exact List.mem_cons_self _ _
        · exact List.mem_cons_of_mem r (ih hq2)

/-- Branch analysis of `rentVehicle`: it either throws with the state
unchanged, or appends exactly the rental built from its arguments. -/
theorem rentVehicle_cases (s : MState) (reg cid sd ed : Str) :
    (∃ e, rentVehicle s reg cid sd ed = .error (e, s)) ∨
    (rentVehicle s reg cid sd ed
        = .ok ((), { s with rentals := s.rentals ++ [⟨reg, cid, sd, ed⟩] }) ∧
      isRented s reg = false ∧ getVehicleIn s reg ≠ none ∧ getCustomerIn s cid ≠ none) := by
  rw [rentVehicle]
  rcases hv : getVehicleIn s reg with _ | v
  · exact Or.inl ⟨_, rfl⟩
  rcases hc : getCustomerIn s cid with _ | c
  · exact Or.inl ⟨_, rfl⟩
  by_cases hrent : s.rentals.any (fun r => r.vehReg = reg) = true
  · rw [if_pos hrent]
    exact Or.inl ⟨_, rfl⟩
  · rw [if_neg hrent]
    rcases hmk : rentalMk reg cid sd ed with e | r
    · exact Or.inl ⟨_, rfl⟩
    · obtain ⟨_, _, _, rfl⟩ := rentalMk_ok hmk
      refine Or.inr ⟨rfl, ?_, by simp, by simp⟩
      rw [isRented]
      simpa using hrent

/-- Branch analysis of `returnVehicle`: every throw leaves the collections'
keys unchanged; success erases exactly the first rental for `reg`. -/
theorem returnVehicle_cases (s : MState) (reg : Str) (m : ℚ) :
    (∃ e s₀, returnVehicle s reg m = .error (e, s₀) ∧ s₀.rentals = s.rentals ∧
      s₀.customers = s.customers ∧
      s₀.vehicles.map Vehicle.regNumber = s.vehicles.map Vehicle.regNumber) ∨
    (∃ cost s', returnVehicle s reg m = .ok (cost, s') ∧
      s'.rentals = eraseRental s.rentals reg ∧ s'.customers = s.customers ∧
      s'.vehicles.map Vehicle.regNumber = s.vehicles.map Vehicle.regNumber ∧
      (∃ r ∈ s.rentals, r.vehReg = reg)) := by
  rcases hfo : s.rentals.find? (fun q => q.vehReg = reg) with _ | r0
  · refine Or.inl ⟨"Rental not found for this vehicle.", s, ?_, rfl, rfl, rfl⟩
    rw [returnVehicle, hfo]
  · have hr0mem : r0 ∈ s.rentals := List.mem_of_find?_eq_some hfo
    have hreg0 : r0.vehReg = reg := by simpa using List.find?_some hfo
    rcases hgv : getVehicleIn s r0.vehReg with _ | v
    · refine Or.inl ⟨"dangling vehicle pointer", s, ?_, rfl, rfl, rfl⟩
      rw [returnVehicle, hfo]
      simp only [hgv]
    · rcases hsm : setMileage v m with e0 | v'
      · refine Or.inl ⟨e0, s, ?_, rfl, rfl, rfl⟩
        rw [returnVehicle, hfo]
        simp only [hgv, hsm]
      · have hv'reg : v'.regNumber = r0.vehReg := by
          obtain ⟨_, _, rfl⟩ := setMileage_ok hsm
          exact (getVehicleIn_some hgv).2
        have hmap : (replaceVehicle s.vehicles r0.vehReg v').map Vehicle.regNumber
            = s.vehicles.map Vehicle.regNumber := replaceVehicle_map hv'reg
        rcases hgc : getCustomerIn
            { s with vehicles := replaceVehicle s.vehicles r0.vehReg v' } r0.custId with _ | c
        · refine Or.inl ⟨"dangling customer pointer",
            { s with vehicles := replaceVehicle s.vehicles r0.vehReg v' }, ?_, rfl, rfl, hmap⟩
          rw [returnVehicle, hfo]
          simp only [hgv, hsm, hgc]
        · rcases hcc : calculateTotalCost r0 v' with e0 | cost0
          · refine Or.inl ⟨e0,
              { s with vehicles := replaceVehicle s.vehicles r0.vehReg v' }, ?_, rfl, rfl, hmap⟩
            rw [returnVehicle, hfo]
            simp only [hgv, hsm, hgc, hcc]
          · refine Or.inr ⟨cost0,
              { s with
                vehicles := replaceVehicle s.vehicles r0.vehReg v'
                rentals := eraseRental s.rentals reg
                rentalHistory := s.rentalHistory ++ [historyLine v' c r0 cost0] },
              ?_, rfl, rfl, hmap, r0, hr0mem, hreg0⟩
            rw [returnVehicle, hfo]
            simp only [hgv, hsm, hgc, hcc]

theorem addVehicle_cases (s : MState) (v : Vehicle) :
    (addVehicle s v = .error ("Vehicle with this registration number already exists.", s) ∧
      isRegNumberUnique s v.regNumber = false) ∨
    (addVehicle s v = .ok ((), { s with vehicles := s.vehicles ++ [v] }) ∧
      isRegNumberUnique s v.regNumber = true) := by
  rw [addVehicle]
  by_cases h : isRegNumberUnique s v.regNumber = true
  · rw [if_pos h]
    exact Or.inr ⟨rfl, h⟩
  · rw [if_neg h]
    exact Or.inl ⟨rfl, by simpa using h⟩

theorem addCustomer_cases (s : MState) (c : Customer) :
    (addCustomer s c = .error ("Customer with this ID already exists.", s) ∧
      isCustomerIdUnique s c.id = false) ∨
    (addCustomer s c = .ok ((), { s with customers := s.customers ++ [c] }) ∧
      isCustomerIdUnique s c.id = true) := by
  rw [addCustomer]
  by_cases h : isCustomerIdUnique s c.id = true
  · rw [if_pos h]
    exact Or.inr ⟨rfl, h⟩
  · rw [if_neg h]
    exact Or.inl ⟨rfl, by simpa using h⟩

theorem removeVehicle_cases (s : MState) (reg : Str) :
    (∃ e, removeVehicle s reg = .error (e, s)) ∨
    (removeVehicle s reg
        = .ok ((), { s with vehicles := s.vehicles.filter fun v => ¬ v.regNumber = reg }) ∧
      (s.rentals.any fun r => r.vehReg = reg) = false) := by
  rw [removeVehicle]
  by_cases h1 : (s.rentals.any fun r => r.vehReg = reg) = true
  · rw [if_pos h1]
    exact Or.inl ⟨_, rfl⟩
  · rw [if_neg h1]
    by_cases h2 : (s.vehicles.any fun v => v.regNumber = reg) = true
    · rw [if_pos h2]
      exact Or.inr ⟨rfl, by simpa using h1⟩
    · rw [if_neg h2]
      exact Or.inl ⟨_, rfl⟩

theorem removeCustomer_cases (s : MState) (id : Str) :
    (∃ e, removeCustomer s id = .error (e, s)) ∨
    (removeCustomer s id
        = .ok ((), { s with customers := s.customers.filter fun c => ¬ c.id = id }) ∧
      (s.rentals.any fun r => r.custId = id) = false) := by
  rw [removeCustomer]
  by_cases h1 : (s.rentals.any fun r => r.custId = id) = true
  · rw [if_pos h1]
    exact Or.inl ⟨_, rfl⟩
  · rw [if_neg h1]
    by_cases h2 : (s.customers.any fun c => c.id = id) = true
    · rw [if_pos h2]
      exact Or.inr ⟨rfl, by simpa using h1⟩
    · rw [if_neg h2]
      exact Or.inl ⟨_, rfl⟩

/-- Every public operation preserves the structural invariant. -/
theorem inv_applyOp {s : MState} (op : Op) (h : Inv s) : Inv (applyOp s op).1 := by
  obtain ⟨hv, hc, hr, href⟩ := h
  cases op with
  | addVehicle v =>
      rcases addVehicle_cases s v with ⟨heq, hu⟩ | ⟨heq, hu⟩
      · rw [applyOp, heq]
        exact ⟨hv, hc, hr, href⟩
      · rw [applyOp, heq]
        show Inv { s with vehicles := s.vehicles ++ [v] }
        refine ⟨?_, hc, hr, ?_⟩
        · show ((s.vehicles ++ [v]).map Vehicle.regNumber).Nodup
          rw [List.map_append, List.nodup_append]
          refine ⟨hv, List.nodup_singleton _, ?_⟩
          intro x hx hx2
          simp at hx2
          rw [isRegNumberUnique, List.all_eq_true] at hu
          obtain ⟨w, hw, he⟩ := List.mem_map.mp hx
          have := hu w hw
          simp [he, hx2] at this
        · intro r hrr
          obtain ⟨⟨w, hw, he⟩, hcx⟩ := href r hrr
          exact ⟨⟨w, List.mem_append_left _ hw, he⟩, hcx⟩
  | removeVehicle reg =>
      rcases removeVehicle_cases s reg with ⟨e, heq⟩ | ⟨heq, hnorent⟩
      · rw [applyOp, heq]
        exact ⟨hv, hc, hr, href⟩
      · rw [applyOp, heq]
        show Inv { s with vehicles := s.vehicles.filter fun v => ¬ v.regNumber = reg }
        refine ⟨?_, hc, hr, ?_⟩
        · exact hv.sublist (List.Sublist.map Vehicle.regNumber (List.filter_sublist s.vehicles))
        · intro r hrr
          obtain ⟨⟨w, hw, he⟩, hcx⟩ := href r hrr
          refine ⟨⟨w, ?_, he⟩, hcx⟩
          rw [List.mem_filter]
          refine ⟨hw, ?_⟩
          have hrne : r.vehReg ≠ reg := by
            intro hcontra
            rw [List.any_eq_false] at hnorent
            have := hnorent r hrr
            simp [hcontra] at this
          simp [he, hrne]
  | addCustomer c =>
      rcases addCustomer_cases s c with ⟨heq, hu⟩ | ⟨heq, hu⟩
      · rw [applyOp, heq]
        exact ⟨hv, hc, hr, href⟩
      · rw [applyOp, heq]
        show Inv { s with customers := s.customers ++ [c] }
        refine ⟨hv, ?_, hr, ?_⟩
        · show ((s.customers ++ [c]).map Customer.id).Nodup
          rw [List.map_append, List.nodup_append]
          refine ⟨hc, List.nodup_singleton _, ?_⟩
          intro x hx hx2
          simp at hx2
          rw [isCustomerIdUnique, List.all_eq_true] at hu
          obtain ⟨w, hw, he⟩ := List.mem_map.mp hx
          have := hu w hw
          simp [he, hx2] at this
        · intro r hrr
          obtain ⟨hvx, ⟨w, hw, he⟩⟩ := href r hrr
          exact ⟨hvx, ⟨w, List.mem_append_left _ hw, he⟩⟩
  | removeCustomer id =>
      rcases removeCustomer_cases s id with ⟨e, heq⟩ | ⟨heq, hnorent⟩
      · rw [applyOp, heq]
        exact ⟨hv, hc, hr, href⟩
      · rw [applyOp, heq]
        show Inv { s with customers := s.customers.filter fun c => ¬ c.id = id }
        refine ⟨hv, ?_, hr, ?_⟩
        · exact hc.sublist (List.Sublist.map Customer.id (List.filter_sublist s.customers))
        · intro r hrr
          obtain ⟨hvx, ⟨w, hw, he⟩⟩ := href r hrr
          refine ⟨hvx, ⟨w, ?_, he⟩⟩
          rw [List.mem_filter]
          refine ⟨hw, ?_⟩
          have hrne : r.custId ≠ id := by
            intro hcontra
            rw [List.any_eq_false] at hnorent
            have := hnorent r hrr
            simp [hcontra] at this
          simp [he, hrne]
  | rentVehicle reg cid sd ed =>
      rcases rentVehicle_cases s reg cid sd ed with ⟨e, heq⟩ | ⟨heq, hnr, hvx, hcx⟩
      · rw [applyOp, heq]
        exact ⟨hv, hc, hr, href⟩
      · rw [applyOp, heq]
        show Inv { s with rentals := s.rentals ++ [⟨reg, cid, sd, ed⟩] }
        refine ⟨hv, hc, ?_, ?_⟩
        · show ((s.rentals ++ [(⟨reg, cid, sd, ed⟩ : Rental)]).map Rental.vehReg).Nodup
          rw [List.map_append, List.nodup_append]
          refine ⟨hr, List.nodup_singleton _, ?_⟩
          intro x hx hx2
          simp at hx2
          subst hx2
          rw [isRented, List.any_eq_false] at hnr
          obtain ⟨q, hq, he⟩ := List.mem_map.mp hx
          have := hnr q hq
          simp [he] at this
        · intro r hrr
          rcases List.mem_append.mp hrr with hin | hin
          · exact href r hin
          · simp at hin
            subst hin
            constructor
            · rcases hgve : getVehicleIn s reg with _ | w
              · exact absurd hgve hvx
              · exact ⟨w, (getVehicleIn_some hgve).1, (getVehicleIn_some hgve).2⟩
            · rcases hgce : getCustomerIn s cid with _ | w
              · exact absurd hgce hcx
              · exact ⟨w, (getCustomerIn_some hgce).1, (getCustomerIn_some hgce).2⟩
  | returnVehicle reg m =>
      rcases returnVehicle_cases s reg m with
        ⟨e, s₀, heq, h1, h2, h3⟩ | ⟨cost, s', heq, h1, h2, h3, _⟩
      · rw [applyOp, heq]
        show Inv s₀
        refine ⟨by rw [h3]; exact hv, by rw [h2]; exact hc, by rw [h1]; exact hr, ?_⟩
        intro r hrr
        rw [h1] at hrr
        obtain ⟨⟨w, hw, he⟩, ⟨d, hd, hde⟩⟩ := href r hrr
        constructor
        · have hmm : r.vehReg ∈ s₀.vehicles.map Vehicle.regNumber := by
            rw [h3]
            exact List.mem_map.mpr ⟨w, hw, he⟩
          obtain ⟨w2, hw2, he2⟩ := List.mem_map.mp hmm
          exact ⟨w2, hw2, he2⟩
        · rw [h2]
          exact ⟨d, hd, hde⟩
      · rw [applyOp, heq]
        show Inv s'
        refine ⟨by rw [h3]; exact hv, by rw [h2]; exact hc, ?_, ?_⟩
        · rw [h1]
          exact hr.sublist (List.Sublist.map Rental.vehReg (eraseRental_sublist _ _))
        · intro r hrr
          rw [h1] at hrr
          have hin : r ∈ s.rentals := (eraseRental_sublist _ _).subset hrr
          obtain ⟨⟨w, hw, he⟩, ⟨d, hd, hde⟩⟩ := href r hin
          constructor
          · have hmm : r.vehReg ∈ s'.vehicles.map Vehicle.regNumber := by
              rw [h3]
              exact List.mem_map.mpr ⟨w, hw, he⟩
            obtain ⟨w2, hw2, he2⟩ := List.mem_map.mp hmm
            exact ⟨w2, hw2, he2⟩
          · rw [h2]
            exact ⟨d, hd, hde⟩

/-- Every reachable manager state satisfies the structural invariant. -/
theorem reachable_inv {s : MState} (h : Reachable s) : Inv s := by
  induction h with
  | init => decide
  | step op _ ih => exact inv_applyOp op ih

theorem getVehicleIn_isSome {s : MState} {reg : Str}
    (h : ∃ v ∈ s.vehicles, v.regNumber = reg) : ∃ v, getVehicleIn s reg = some v := by
  have hsome : (s.vehicles.find? (fun v => v.regNumber = reg)).isSome = true := by
    rw [List.find?_isSome]
    obtain ⟨v, hv, he⟩ := h
    exact ⟨v, hv, by simp [he]⟩
  rcases hfo : s.vehicles.find? (fun v => v.regNumber = reg) with _ | v
  · rw [hfo] at hsome
    simp at hsome
  · exact ⟨v, hfo⟩

theorem isRented_exists {s : MState} {reg : Str} (h : isRented s reg = true) :
    ∃ r ∈ s.rentals, r.vehReg = reg := by
  rw [isRented, List.any_eq_true] at h
  obtain ⟨r, hr, he⟩ := h
  exact ⟨r, hr, by simpa using he⟩

/-- C4: in every reachable manager state each vehicle has at most one
active rental (the rentals' registration keys are pairwise distinct);
`rentVehicle` on an already-rented vehicle fails — with the message
"Vehicle is already rented." whenever the customer lookup succeeds — so
renting twice without a return fails the second time; across every public
operation a vehicle only switches from not-rented to rented through a
successful `rentVehicle` on it and only switches back through a successful
`returnVehicle` on it; and removal of a rented vehicle always fails. -/
theorem claim_C4 (s : MState) (h : Reachable s) :
    (s.rentals.map Rental.vehReg).Nodup ∧
    (∀ reg cid sd ed : Str, isRented s reg = true →
      (∃ e, rentVehicle s reg cid sd ed = .error (e, s)) ∧
      (getCustomerIn s cid ≠ none →
        rentVehicle s reg cid sd ed = .error ("Vehicle is already rented.", s))) ∧
    (∀ op : Op, ∀ reg : Str,
      (isRented s reg = false → isRented (applyOp s op).1 reg = true →
        (applyOp s op).2 = none ∧ ∃ cid sd ed, op = .rentVehicle reg cid sd ed) ∧
      (isRented s reg = true → isRented (applyOp s op).1 reg = false →
        (applyOp s op).2 = none ∧ ∃ m, op = .returnVehicle reg m)) ∧
    (∀ reg : Str, isRented s reg = true →
      removeVehicle s reg = .error ("Cannot remove vehicle that is currently rented.", s)) := by
  have hInv := reachable_inv h
  obtain ⟨hv, hc, hr, href⟩ := hInv
  refine ⟨hr, ?_, ?_, ?_⟩
  · intro reg cid sd ed hrent
    obtain ⟨r1, hr1, he1⟩ := isRented_exists hrent
    have hveh : ∃ v ∈ s.vehicles, v.regNumber = reg := by
      obtain ⟨⟨w, hw, he⟩, _⟩ := href r1 hr1
      exact ⟨w, hw, by rw [he, he1]⟩
    obtain ⟨v, hgv⟩ := getVehicleIn_isSome hveh
    have hrent2 : (s.rentals.any fun r => r.vehReg = reg) = true := hrent
    constructor
    · rcases hgc : getCustomerIn s cid with _ | c
      · exact ⟨"Customer not found.", by rw [rentVehicle, hgv, hgc]⟩
      · exact ⟨"Vehicle is already rented.", by
          rw [rentVehicle, hgv, hgc, if_pos hrent2]⟩
    · intro hcne
      rcases hgc : getCustomerIn s cid with _ | c
      · exact absurd hgc hcne
      · rw [rentVehicle, hgv, hgc, if_pos hrent2]
  · intro op reg
    constructor
    · intro hfalse htrue
      cases op with
      | addVehicle v =>
          rcases addVehicle_cases s v with ⟨heq, _⟩ | ⟨heq, _⟩ <;>
            rw [applyOp, heq] at htrue <;>
            exact absurd (show isRented s reg = true from htrue) (by simp [hfalse])
      | removeVehicle reg2 =>
          rcases removeVehicle_cases s reg2 with ⟨e, heq⟩ | ⟨heq, _⟩ <;>
            rw [applyOp, heq] at htrue <;>
            exact absurd (show isRented s reg = true from htrue) (by simp [hfalse])
      | addCustomer c =>
          rcases addCustomer_cases s c with ⟨heq, _⟩ | ⟨heq, _⟩ <;>
            rw [applyOp, heq] at htrue <;>
            exact absurd (show isRented s reg = true from htrue) (by simp [hfalse])
      | removeCustomer id =>
          rcases removeCustomer_cases s id with ⟨e, heq⟩ | ⟨heq, _⟩ <;>
            rw [applyOp, heq] at htrue <;>
            exact absurd (show isRented s reg = true from htrue) (by simp [hfalse])
      | rentVehicle reg2 cid sd ed =>
          rcases rentVehicle_cases s reg2 cid sd ed with ⟨e, heq⟩ | ⟨heq, hnr, _, _⟩
          · rw [applyOp, heq] at htrue
            exact absurd (show isRented s reg = true from htrue) (by simp [hfalse])
          · rw [applyOp, heq] at htrue ⊢
            have : isRented { s with rentals := s.rentals ++ [⟨reg2, cid, sd, ed⟩] } reg
                = true := htrue
            rw [isRented, List.any_append] at this
            have hfalse2 : (s.rentals.any fun r => r.vehReg = reg) = false := hfalse
            rw [hfalse2] at this
            simp at this
            subst this
            exact ⟨rfl, cid, sd, ed, rfl⟩
      | returnVehicle reg2 m =>
          rcases returnVehicle_cases s reg2 m with
            ⟨e, s₀, heq, h1, _, _⟩ | ⟨cost, s', heq, h1, _, _, _⟩ <;>
            rw [applyOp, heq] at htrue
          · have : isRented s₀ reg = true := htrue
            rw [isRented, h1] at this
            exact absurd (show isRented s reg = true from this) (by simp [hfalse])
          · have : isRented s' reg = true := htrue
            rw [isRented, h1, List.any_eq_true] at this
            obtain ⟨q, hq, he⟩ := this
            have hqs : q ∈ s.rentals := (eraseRental_sublist _ _).subset hq
            have : isRented s reg = true := by
              rw [isRented, List.any_eq_true]
              exact ⟨q, hqs, he⟩
            exact absurd this (by simp [hfalse])
    · intro htrue hfalse
      cases op with
      | addVehicle v =>
          rcases addVehicle_cases s v with ⟨heq, _⟩ | ⟨heq, _⟩ <;>
            rw [applyOp, heq] at hfalse <;>
            exact absurd (show isRented s reg = false from hfalse) (by simp [htrue])
      | removeVehicle reg2 =>
          rcases removeVehicle_cases s reg2 with ⟨e, heq⟩ | ⟨heq, _⟩ <;>
            rw [applyOp, heq] at hfalse <;>
            exact absurd (show isRented s reg = false from hfalse) (by simp [htrue])
      | addCustomer c =>
          rcases addCustomer_cases s c with ⟨heq, _⟩ | ⟨heq, _⟩ <;>
            rw [applyOp, heq] at hfalse <;>
            exact absurd (show isRented s reg = false from hfalse) (by simp [htrue])
      | removeCustomer id =>
          rcases removeCustomer_cases s id with ⟨e, heq⟩ | ⟨heq, _⟩ <;>
            rw [applyOp, heq] at hfalse <;>
            exact absurd (show isRented s reg = false from hfalse) (by simp [htrue])
      | rentVehicle reg2 cid sd ed =>
          rcases rentVehicle_cases s reg2 cid sd ed with ⟨e, heq⟩ | ⟨heq, hnr, _, _⟩ <;>
            rw [applyOp, heq] at hfalse
          · exact absurd (show isRented s reg = false from hfalse) (by simp [htrue])
          · obtain ⟨q, hq, he⟩ := isRented_exists htrue
            have : isRented { s with rentals := s.rentals ++ [⟨reg2, cid, sd, ed⟩] } reg
                = false := hfalse
            rw [isRented, List.any_eq_false] at this
            have := this q (List.mem_append_left _ hq)
            simp [he] at this
      | returnVehicle reg2 m =>
          rcases returnVehicle_cases s reg2 m with
            ⟨e, s₀, heq, h1, _, _⟩ | ⟨cost, s', heq, h1, _, _, _⟩ <;>
            rw [applyOp, heq] at hfalse
          · have : isRented s₀ reg = false := hfalse
            rw [isRented, h1] at this
            exact absurd (show isRented s reg = false from this) (by simp [htrue])
          · rw [applyOp, heq]
            have hF : isRented s' reg = false := hfalse
            rw [isRented, h1] at hF
            by_cases hrr : reg2 = reg
            · exact ⟨rfl, m, by rw [hrr]⟩
            · obtain ⟨q, hq, he⟩ := isRented_exists htrue
              have hqin : q ∈ eraseRental s.rentals reg2 :=
                mem_eraseRental_of_ne hq (by rw [he]; exact fun hcontra => hrr hcontra.symm)
              rw [List.any_eq_false] at hF
              have := hF q hqin
              simp [he] at this
  · intro reg hrent
    rw [removeVehicle, if_pos (show (s.rentals.any fun r => r.vehReg = reg) = true from hrent)]

/-- Witness for C4 at the initial (reachable) state. -/
theorem claim_C4_witness :
    Reachable emptyMState ∧
    ((emptyMState.rentals.map Rental.vehReg).Nodup ∧
    (∀ reg cid sd ed : Str, isRented emptyMState reg = true →
      (∃ e, rentVehicle emptyMState reg cid sd ed = .error (e, emptyMState)) ∧
      (getCustomerIn emptyMState cid ≠ none →
        rentVehicle emptyMState reg cid sd ed
          = .error ("Vehicle is already rented.", emptyMState))) ∧
    (∀ op : Op, ∀ reg : Str,
      (isRented emptyMState reg = false → isRented (applyOp emptyMState op).1 reg = true →
        (applyOp emptyMState op).2 = none ∧ ∃ cid sd ed, op = .rentVehicle reg cid sd ed) ∧
      (isRented emptyMState reg = true → isRented (applyOp emptyMState op).1 reg = false →
        (applyOp emptyMState op).2 = none ∧ ∃ m, op = .returnVehicle reg m)) ∧
    (∀ reg : Str, isRented emptyMState reg = true →
      removeVehicle emptyMState reg
        = .error ("Cannot remove vehicle that is currently rented.", emptyMState))) :=
  ⟨Reachable.init, claim_C4 emptyMState Reachable.init⟩

/-! ### Claims C8 and C9: persistence -/

/-- A string that cannot corrupt the `;`-and-newline delimited file
format. -/
def cleanStr (x : Str) : Prop := ';' ∉ x ∧ '\n' ∉ x

/-- A `double` field whose value survives C++ stream output and `stod`
exactly: a non-negative integer below 10^6 (default `operator<<` precision
is 6 significant digits, so such values are printed as their plain decimal
digits). -/
def natField (q : ℚ) : Prop := q.den = 1 ∧ 0 ≤ q.num ∧ q.num < 1000000

instance (q : ℚ) : Decidable (natField q) := by unfold natField; infer_instance

/-- The variant-specific constructor invariants. -/
def vdataValid : VehicleData → Prop
  | .combustionCar engine consumption _ doors => 0 < engine ∧ 0 < consumption ∧ 0 < doors
  | .electricCar battery doors => 0 < battery ∧ 0 < doors
  | .truck engine consumption _ cargo => 0 < engine ∧ 0 < consumption ∧ 0 < cargo
  | .motorcycle engine consumption _ => 0 < engine ∧ 0 < consumption

instance (d : VehicleData) : Decidable (vdataValid d) :=
  match d with
  | .combustionCar engine consumption _ doors =>
      inferInstanceAs (Decidable (0 < engine ∧ 0 < consumption ∧ 0 < doors))
  | .electricCar battery doors => inferInstanceAs (Decidable (0 < battery ∧ 0 < doors))
  | .truck engine consumption _ cargo =>
      inferInstanceAs (Decidable (0 < engine ∧ 0 < consumption ∧ 0 < cargo))
  | .motorcycle engine consumption _ =>
      inferInstanceAs (Decidable (0 < engine ∧ 0 < consumption))

/-- The constructor invariants of a vehicle object. -/
def vehicleValid (v : Vehicle) : Prop :=
  v.regNumber ≠ [] ∧ v.regNumber.length ≤ 9 ∧ v.brand ≠ [] ∧ v.model ≠ [] ∧
  vdataValid v.vdata

instance (v : Vehicle) : Decidable (vehicleValid v) := by
  unfold vehicleValid; infer_instance

/-- The variant-specific `double` field, when present, is
exactly-representable. -/
def vdataNatField : VehicleData → Prop
  | .combustionCar _ consumption _ _ => natField consumption
  | .electricCar battery _ => natField battery
  | .truck _ consumption _ _ => natField consumption
  | .motorcycle _ consumption _ => natField consumption

instance (d : VehicleData) : Decidable (vdataNatField d) :=
  match d with
  | .combustionCar _ consumption _ _ => inferInstanceAs (Decidable (natField consumption))
  | .electricCar battery _ => inferInstanceAs (Decidable (natField battery))
  | .truck _ consumption _ _ => inferInstanceAs (Decidable (natField consumption))
  | .motorcycle _ consumption _ => inferInstanceAs (Decidable (natField consumption))

/-- A vehicle whose textual round trip is exact. -/
def vehicleClean (v : Vehicle) : Prop :=
  vehicleValid v ∧ cleanStr v.regNumber ∧ cleanStr v.brand ∧ cleanStr v.model ∧
  natField v.mileage ∧ natField v.baseCost ∧ vdataNatField v.vdata

instance (v : Vehicle) : Decidable (vehicleClean v) := by
  unfold vehicleClean cleanStr; infer_instance

/-- A customer whose textual round trip is exact. -/
def customerClean (c : Customer) : Prop :=
  c.id ≠ [] ∧ c.name ≠ [] ∧ c.address ≠ [] ∧
  cleanStr c.id ∧ cleanStr c.name ∧ cleanStr c.address

instance (c : Customer) : Decidable (customerClean c) := by
  unfold customerClean cleanStr; infer_instance

/-- The per-rental conditions for an exact replay through `rentVehicle`. -/
def rentalClean (V : List Vehicle) (C : List Customer) (r : Rental) : Prop :=
  isValidDate r.startDate = true ∧ isValidDate r.endDate = true ∧
  lexLt r.startDate r.endDate = true ∧
  (∃ v ∈ V, v.regNumber = r.vehReg) ∧ (∃ c ∈ C, c.id = r.custId) ∧
  r.vehReg ≠ [] ∧ cleanStr r.vehReg ∧ r.custId ≠ [] ∧ cleanStr r.custId

instance (V : List Vehicle) (C : List Customer) (r : Rental) :
    Decidable (rentalClean V C r) := by
  unfold rentalClean cleanStr; infer_instance

/-- A manager state whose save file loads back verbatim: entity fields
hold the constructor invariants, contain no `;` or newline, numeric
`double` fields are exactly-representable, rentals reference existing
entities with at most one rental per vehicle, and history lines contain no
newline. -/
def CleanState (s : MState) : Prop :=
  (∀ v ∈ s.vehicles, vehicleClean v) ∧ (∀ c ∈ s.customers, customerClean c) ∧
  (∀ r ∈ s.rentals, rentalClean s.vehicles s.customers r) ∧
  (s.rentals.map Rental.vehReg).Nodup ∧
  (∀ l ∈ s.rentalHistory, '\n' ∉ l)

instance (s : MState) : Decidable (CleanState s) := by
  unfold CleanState; infer_instance

theorem vehicleBaseErr_none {reg brand model : Str} (h1 : reg ≠ [])
    (h2 : reg.length ≤ 9) (h3 : brand ≠ []) (h4 : model ≠ []) :
    vehicleBaseErr reg brand model = none := by
  rw [vehicleBaseErr, if_neg h1, if_neg (by omega), if_neg h3, if_neg h4]

theorem combustionErr_none {engine : Int} {consumption : ℚ} (h5 : 0 < engine)
    (h6 : 0 < consumption) : combustionErr engine consumption = none := by
  rw [combustionErr, if_neg (by omega), if_neg (not_le.mpr h6)]

theorem combustionCarMk_valid {reg brand model : Str} {miles cost consumption : ℚ}
    {cat : LicenceCategory} {engine doors : Int} {fuel : FuelType}
    (h1 : reg ≠ []) (h2 : reg.length ≤ 9) (h3 : brand ≠ []) (h4 : model ≠ [])
    (h5 : 0 < engine) (h6 : 0 < consumption) (h7 : 0 < doors) :
    combustionCarMk reg brand model miles cost cat engine consumption fuel doors
      = .ok ⟨reg, brand, model, miles, cost, cat,
          .combustionCar engine consumption fuel doors⟩ := by
  rw [combustionCarMk, vehicleBaseErr_none h1 h2 h3 h4, combustionErr_none h5 h6,
    if_neg (not_le.mpr h7)]

theorem electricCarMk_valid {reg brand model : Str} {miles cost battery : ℚ}
    {cat : LicenceCategory} {doors : Int}
    (h1 : reg ≠ []) (h2 : reg.length ≤ 9) (h3 : brand ≠ []) (h4 : model ≠ [])
    (h5 : 0 < battery) (h6 : 0 < doors) :
    electricCarMk reg brand model miles cost cat battery doors
      = .ok ⟨reg, brand, model, miles, cost, cat, .electricCar battery doors⟩ := by
  rw [electricCarMk, vehicleBaseErr_none h1 h2 h3 h4, if_neg (not_le.mpr h5),
    if_neg (not_le.mpr h6)]

theorem truckMk_valid {reg brand model : Str} {miles cost consumption : ℚ}
    {cat : LicenceCategory} {engine cargo : Int} {fuel : FuelType}
    (h1 : reg ≠ []) (h2 : reg.length ≤ 9) (h3 : brand ≠ []) (h4 : model ≠ [])
    (h5 : 0 < engine) (h6 : 0 < consumption) (h7 : 0 < cargo) :
    truckMk reg brand model miles cost cat engine consumption fuel cargo
      = .ok ⟨reg, brand, model, miles, cost, cat, .truck engine consumption fuel cargo⟩ := by
  rw [truckMk, vehicleBaseErr_none h1 h2 h3 h4, combustionErr_none h5 h6,
    if_neg (not_le.mpr h7)]

theorem motorcycleMk_valid {reg brand model : Str} {miles cost consumption : ℚ}
    {cat : LicenceCategory} {engine : Int} {fuel : FuelType}
    (h1 : reg ≠ []) (h2 : reg.length ≤ 9) (h3 : brand ≠ []) (h4 : model ≠ [])
    (h5 : 0 < engine) (h6 : 0 < consumption) :
    motorcycleMk reg brand model miles cost cat engine consumption fuel
      = .ok ⟨reg, brand, model, miles, cost, cat, .motorcycle engine consumption fuel⟩ := by
  rw [motorcycleMk, vehicleBaseErr_none h1 h2 h3 h4, combustionErr_none h5 h6]

theorem privateCustomerMk_valid {name addr idCard : Str} (h1 : idCard ≠ [])
    (h2 : name ≠ []) (h3 : addr ≠ []) :
    privateCustomerMk name addr idCard = .ok ⟨idCard, name, addr, .privateCustomer⟩ := by
  rw [privateCustomerMk, customerBaseErr, if_neg h1, if_neg h2, if_neg h3, if_neg h1]

theorem businessCustomerMk_valid {name addr nipVal : Str} (h1 : nipVal ≠ [])
    (h2 : name ≠ []) (h3 : addr ≠ []) :
    businessCustomerMk name addr nipVal = .ok ⟨nipVal, name, addr, .businessCustomer⟩ := by
  rw [businessCustomerMk, customerBaseErr, if_neg h1, if_neg h2, if_neg h3, if_neg h1]

theorem natField_cast {q : ℚ} (h : natField q) : ((q.num.toNat : ℕ) : ℚ) = q := by
  obtain ⟨h1, h2, _⟩ := h
  have h4 : ((q.num : ℚ)) = q := (Rat.den_eq_one_iff q).mp h1
  calc ((q.num.toNat : ℕ) : ℚ) = ((q.num.toNat : ℤ) : ℚ) := by push_cast; ring
    _ = ((q.num : ℤ) : ℚ) := by rw [Int.toNat_of_nonneg h2]
    _ = q := h4

theorem fmtQ_natField {q : ℚ} (h : natField q) : fmtQ q = natToStr q.num.toNat := by
  rw [fmtQ, if_pos (by simp [h.1, h.2.1])]

theorem stodE_fmtQ {q : ℚ} (h : natField q) : stodE (fmtQ q) = .ok q := by
  rw [fmtQ_natField h, stodE_natToStr, natField_cast h]

theorem digits_cleanStr {x : Str} (h : ∀ c ∈ x, isDigitChar c = true) : cleanStr x := by
  constructor
  · intro hc
    have := h _ hc
    simp [isDigitChar] at this
  · intro hc
    have := h _ hc
    simp [isDigitChar] at this

theorem natToStr_cleanStr (n : Nat) : cleanStr (natToStr n) :=
  digits_cleanStr (natToStr_all_digit n)

theorem intToStr_cleanStr (n : Int) : cleanStr (intToStr n) := by
  rw [intToStr]
  by_cases h : n < 0
  · rw [if_pos h]
    obtain ⟨c1, c2⟩ := natToStr_cleanStr n.natAbs
    constructor
    · intro hc
      rcases List.mem_cons.mp hc with he | he
      · simp at he
      · exact c1 he
    · intro hc
      rcases List.mem_cons.mp hc with he | he
      · simp at he
      · exact c2 he
  · rw [if_neg h]
    exact natToStr_cleanStr n.toNat

theorem intToStr_ne_nil (n : Int) : intToStr n ≠ [] := by
  rw [intToStr]
  by_cases h : n < 0
  · rw [if_pos h]
    simp
  · rw [if_neg h]
    exact natToStr_ne_nil n.toNat

theorem fmtQ_cleanStr {q : ℚ} (h : natField q) : cleanStr (fmtQ q) := by
  rw [fmtQ_natField h]
  exact natToStr_cleanStr _

theorem fmtQ_ne_nil {q : ℚ} (h : natField q) : fmtQ q ≠ [] := by
  rw [fmtQ_natField h]
  exact natToStr_ne_nil _

theorem natToFuel_fuelToNat (f : FuelType) : natToFuel ((fuelToNat f : ℕ) : ℤ) = f := by
  cases f <;> rfl

theorem natToCat_catToNat (c : LicenceCategory) : natToCat ((catToNat c : ℕ) : ℤ) = c := by
  cases c <;> rfl

/-- The fields written for one vehicle are non-empty and `;`-free. -/
theorem vehicleFields_clean {v : Vehicle} (hc : vehicleClean v) :
    ∀ f ∈ vehicleFields v, f ≠ [] ∧ ';' ∉ f := by
  obtain ⟨⟨hr1, _, hb1, hm1, _⟩, hrc, hbc, hmc, hmil, hcost, hvd⟩ := hc
  rcases v with ⟨reg, brand, model, miles, cost, cat, d⟩
  cases d <;>
  · intro f hf
    simp only [vehicleFields, List.mem_cons, List.not_mem_nil, or_false] at hf
    rcases hf with rfl | rfl | rfl | rfl | rfl | rfl | rfl | rfl | rfl | rfl | rfl <;>
      first
      | exact ⟨by decide, by decide⟩
      | exact ⟨hb1, hbc.1⟩
      | exact ⟨hm1, hmc.1⟩
      | exact ⟨hr1, hrc.1⟩
      | exact ⟨fmtQ_ne_nil hcost, (fmtQ_cleanStr hcost).1⟩
      | exact ⟨fmtQ_ne_nil hmil, (fmtQ_cleanStr hmil).1⟩
      | exact ⟨fmtQ_ne_nil hvd, (fmtQ_cleanStr hvd).1⟩
      | exact ⟨intToStr_ne_nil _, (intToStr_cleanStr _).1⟩
      | exact ⟨natToStr_ne_nil _, (natToStr_cleanStr _).1⟩

theorem parseVehicleLine_cc {reg brand model : Str} {miles cost consumption : ℚ}
    {cat : LicenceCategory} {engine doors : Int} {fuel : FuelType}
    (hr1 : reg ≠ []) (hr9 : reg.length ≤ 9) (hb1 : brand ≠ []) (hm1 : model ≠ [])
    (he : 0 < engine) (hcons : 0 < consumption) (hdrs : 0 < doors)
    (hmil : natField miles) (hcost : natField cost) (hvd : natField consumption) :
    parseVehicleLine ["CombustionCar".data, brand, model, reg, fmtQ cost,
        intToStr engine, fmtQ consumption, natToStr (fuelToNat fuel),
        natToStr (catToNat cat), fmtQ miles, intToStr doors]
      = some ⟨reg, brand, model, miles, cost, cat,
          .combustionCar engine consumption fuel doors⟩ := by
  rw [parseVehicleLine]
  rw [if_pos (by exact ⟨rfl, by simp⟩)]
  simp only [List.getD_cons_succ, List.getD_cons_zero]
  rw [stodE_fmtQ hmil, stodE_fmtQ hcost, stoiE_natToStr, stoiE_natToStr,
    stoiE_intToStr, stodE_fmtQ hvd, stoiE_intToStr]
  show (combustionCarMk reg brand model miles cost (natToCat ((catToNat cat : ℕ) : ℤ))
      engine consumption (natToFuel ((fuelToNat fuel : ℕ) : ℤ)) doors).toOption
    = some ⟨reg, brand, model, miles, cost, cat,
        .combustionCar engine consumption fuel doors⟩
  rw [natToFuel_fuelToNat, natToCat_catToNat]
  rw [combustionCarMk_valid hr1 hr9 hb1 hm1 he hcons hdrs]
  rfl

theorem parseVehicleLine_ec {reg brand model : Str} {miles cost battery : ℚ}
    {cat : LicenceCategory} {doors : Int}
    (hr1 : reg ≠ []) (hr9 : reg.length ≤ 9) (hb1 : brand ≠ []) (hm1 : model ≠ [])
    (hbat : 0 < battery) (hdrs : 0 < doors)
    (hmil : natField miles) (hcost : natField cost) (hvd : natField battery) :
    parseVehicleLine ["ElectricCar".data, brand, model, reg, fmtQ cost,
        fmtQ battery, natToStr (catToNat cat), fmtQ miles, intToStr doors]
      = some ⟨reg, brand, model, miles, cost, cat, .electricCar battery doors⟩ := by
  rw [parseVehicleLine]
  rw [if_neg (by
    rintro ⟨hcontra, -⟩
    rw [List.getD_cons_zero] at hcontra
    exact absurd hcontra (by decide))]
  rw [if_pos (by exact ⟨rfl, by simp⟩)]
  simp only [List.getD_cons_succ, List.getD_cons_zero]
  rw [stodE_fmtQ hmil, stodE_fmtQ hcost, stoiE_natToStr, stodE_fmtQ hvd, stoiE_intToStr]
  show (electricCarMk reg brand model miles cost (natToCat ((catToNat cat : ℕ) : ℤ))
      battery doors).toOption
    = some ⟨reg, brand, model, miles, cost, cat, .electricCar battery doors⟩
  rw [natToCat_catToNat]
  rw [electricCarMk_valid hr1 hr9 hb1 hm1 hbat hdrs]
  rfl

theorem parseVehicleLine_tr {reg brand model : Str} {miles cost consumption : ℚ}
    {cat : LicenceCategory} {engine cargo : Int} {fuel : FuelType}
    (hr1 : reg ≠ []) (hr9 : reg.length ≤ 9) (hb1 : brand ≠ []) (hm1 : model ≠ [])
    (he : 0 < engine) (hcons : 0 < consumption) (hcg : 0 < cargo)
    (hmil : natField miles) (hcost : natField cost) (hvd : natField consumption) :
    parseVehicleLine ["Truck".data, brand, model, reg, fmtQ cost,
        intToStr engine, fmtQ consumption, natToStr (fuelToNat fuel),
        natToStr (catToNat cat), fmtQ miles, intToStr cargo]
      = some ⟨reg, brand, model, miles, cost, cat, .truck engine consumption fuel cargo⟩ := by
  rw [parseVehicleLine]
  rw [if_neg (by
    rintro ⟨hcontra, -⟩
    rw [List.getD_cons_zero] at hcontra
    exact absurd hcontra (by decide))]
  rw [if_neg (by
    rintro ⟨hcontra, -⟩
    rw [List.getD_cons_zero] at hcontra
    exact absurd hcontra (by decide))]
  rw [if_pos (by exact ⟨rfl, by simp⟩)]
  simp only [List.getD_cons_succ, List.getD_cons_zero]
  rw [stodE_fmtQ hmil, stodE_fmtQ hcost, stoiE_natToStr, stoiE_natToStr,
    stoiE_intToStr, stodE_fmtQ hvd, stoiE_intToStr]
  show (truckMk reg brand model miles cost (natToCat ((catToNat cat : ℕ) : ℤ))
      engine consumption (natToFuel ((fuelToNat fuel : ℕ) : ℤ)) cargo).toOption
    = some ⟨reg, brand, model, miles, cost, cat, .truck engine consumption fuel cargo⟩
  rw [natToFuel_fuelToNat, natToCat_catToNat]
  rw [truckMk_valid hr1 hr9 hb1 hm1 he hcons hcg]
  rfl

theorem parseVehicleLine_mc {reg brand model : Str} {miles cost consumption : ℚ}
    {cat : LicenceCategory} {engine : Int} {fuel : FuelType}
    (hr1 : reg ≠ []) (hr9 : reg.length ≤ 9) (hb1 : brand ≠ []) (hm1 : model ≠ [])
    (he : 0 < engine) (hcons : 0 < consumption)
    (hmil : natField miles) (hcost : natField cost) (hvd : natField consumption) :
    parseVehicleLine ["Motorcycle".data, brand, model, reg, fmtQ cost,
        intToStr engine, fmtQ consumption, natToStr (fuelToNat fuel),
        natToStr (catToNat cat), fmtQ miles]
      = some ⟨reg, brand, model, miles, cost, cat, .motorcycle engine consumption fuel⟩ := by
  rw [parseVehicleLine]
  rw [if_neg (by
    rintro ⟨hcontra, -⟩
    rw [List.getD_cons_zero] at hcontra
    exact absurd hcontra (by decide))]
  rw [if_neg (by
    rintro ⟨hcontra, -⟩
    rw [List.getD_cons_zero] at hcontra
    exact absurd hcontra (by decide))]
  rw [if_neg (by
    rintro ⟨hcontra, -⟩
    rw [List.getD_cons_zero] at hcontra
    exact absurd hcontra (by decide))]
  rw [if_pos (by exact ⟨rfl, by simp⟩)]
  simp only [List.getD_cons_succ, List.getD_cons_zero]
  rw [stodE_fmtQ hmil, stodE_fmtQ hcost, stoiE_natToStr, stoiE_natToStr,
    stoiE_intToStr, stodE_fmtQ hvd]
  show (motorcycleMk reg brand model miles cost (natToCat ((catToNat cat : ℕ) : ℤ))
      engine consumption (natToFuel ((fuelToNat fuel : ℕ) : ℤ))).toOption
    = some ⟨reg, brand, model, miles, cost, cat, .motorcycle engine consumption fuel⟩
  rw [natToFuel_fuelToNat, natToCat_catToNat]
  rw [motorcycleMk_valid hr1 hr9 hb1 hm1 he hcons]
  rfl

/-- Parsing back the fields written for one clean vehicle returns exactly
that vehicle. -/
theorem parseVehicleLine_inv {v : Vehicle} (hc : vehicleClean v) :
    parseVehicleLine (vehicleFields v) = some v := by
  rcases v with ⟨reg, brand, model, miles, cost, cat, d⟩
  obtain ⟨⟨hr1, hr9, hb1, hm1, hval⟩, hrc, hbc, hmc, hmil, hcost, hvd⟩ := hc
  cases d with
  | combustionCar engine consumption fuel doors =>
      exact parseVehicleLine_cc hr1 hr9 hb1 hm1 hval.1 hval.2.1 hval.2.2 hmil hcost hvd
  | electricCar battery doors =>
      exact parseVehicleLine_ec hr1 hr9 hb1 hm1 hval.1 hval.2 hmil hcost hvd
  | truck engine consumption fuel cargo =>
      exact parseVehicleLine_tr hr1 hr9 hb1 hm1 hval.1 hval.2.1 hval.2.2 hmil hcost hvd
  | motorcycle engine consumption fuel =>
      exact parseVehicleLine_mc hr1 hr9 hb1 hm1 hval.1 hval.2 hmil hcost hvd

theorem customerFields_ne_nil (c : Customer) : customerFields c ≠ [] := by
  rcases c with ⟨id, name, addr, t⟩
  cases t <;> simp [customerFields]

theorem vehicleFields_ne_nil (v : Vehicle) : vehicleFields v ≠ [] := by
  rcases v with ⟨reg, brand, model, miles, cost, cat, d⟩
  cases d <;> simp [vehicleFields]

/-- The fields written for one customer are non-empty and `;`-free. -/
theorem customerFields_clean {c : Customer} (hc : customerClean c) :
    ∀ f ∈ customerFields c, f ≠ [] ∧ ';' ∉ f := by
  obtain ⟨h1, h2, h3, h4, h5, h6⟩ := hc
  rcases c with ⟨id, name, addr, t⟩
  cases t <;>
  · intro f hf
    simp only [customerFields, List.mem_cons, List.not_mem_nil, or_false] at hf
    rcases hf with rfl | rfl | rfl | rfl <;>
      first
      | exact ⟨by decide, by decide⟩
      | exact ⟨h1, h4.1⟩
      | exact ⟨h2, h5.1⟩
      | exact ⟨h3, h6.1⟩

/-- Parsing back the fields written for one clean customer returns exactly
that customer. -/
theorem parseCustomerLine_inv {c : Customer} (hc : customerClean c) :
    parseCustomerLine (customerFields c) = some c := by
  obtain ⟨h1, h2, h3, _, _, _⟩ := hc
  rcases c with ⟨id, name, addr, t⟩
  cases t
  · simp only [customerFields]
    rw [parseCustomerLine, if_pos (by exact ⟨rfl, by simp⟩)]
    simp only [List.getD_cons_succ, List.getD_cons_zero]
    rw [privateCustomerMk_valid h1 h2 h3]
    rfl
  · simp only [customerFields]
    rw [parseCustomerLine]
    rw [if_neg (by
      rintro ⟨hcontra, -⟩
      rw [List.getD_cons_zero] at hcontra
      exact absurd hcontra (by decide))]
    rw [if_pos (by exact ⟨rfl, by simp⟩)]
    simp only [List.getD_cons_succ, List.getD_cons_zero]
    rw [businessCustomerMk_valid h1 h2 h3]
    rfl

/-- First count line of a section written by `saveToFile`. -/
theorem readCount_nat (n : Nat) (rest : List Str) :
    readCount (natToStr n :: rest) = .ok ((n : Int), rest) := by
  rw [readCount]
  simp only [stoiE_natToStr]

/-- `loadVehiclesLoop` reads back exactly the lines `saveToFile` wrote for a
list of clean vehicles, leaving the remaining lines untouched. -/
theorem loadVehiclesLoop_exact (vs : List Vehicle) (rest : List Str)
    (acc : List Vehicle) (h : ∀ v ∈ vs, vehicleClean v) :
    loadVehiclesLoop vs.length (vs.map (fun v => joinSemi (vehicleFields v)) ++ rest) acc
      = (acc ++ vs, rest) := by
  induction vs generalizing acc with
  | nil => simp [loadVehiclesLoop]
  | cons v vs ih =>
      have hv := h v (List.mem_cons_self v vs)
      have hfields := vehicleFields_clean hv
      have hsplit : splitSemi (joinSemi (vehicleFields v)) = vehicleFields v :=
        splitSemi_joinSemi (vehicleFields_ne_nil v)
          (fun x hx => (hfields x hx).2) (fun x hx => (hfields x hx).1)
      rw [List.length_cons, List.map_cons, List.cons_append, loadVehiclesLoop]
      simp only [hsplit, eq_false (vehicleFields_ne_nil v), if_false, parseVehicleLine_inv hv]
      rw [ih (acc ++ [v]) (fun w hw => h w (List.mem_cons_of_mem v hw))]
      simp

/-- `loadCustomersLoop` reads back exactly the lines `saveToFile` wrote for a
list of clean customers. -/
theorem loadCustomersLoop_exact (cs : List Customer) (rest : List Str)
    (acc : List Customer) (h : ∀ c ∈ cs, customerClean c) :
    loadCustomersLoop cs.length (cs.map (fun c => joinSemi (customerFields c)) ++ rest) acc
      = (acc ++ cs, rest) := by
  induction cs generalizing acc with
  | nil => simp [loadCustomersLoop]
  | cons c cs ih =>
      have hc := h c (List.mem_cons_self c cs)
      have hfields := customerFields_clean hc
      have hsplit : splitSemi (joinSemi (customerFields c)) = customerFields c :=
        splitSemi_joinSemi (customerFields_ne_nil c)
          (fun x hx => (hfields x hx).2) (fun x hx => (hfields x hx).1)
      rw [List.length_cons, List.map_cons, List.cons_append, loadCustomersLoop]
      simp only [hsplit, eq_false (customerFields_ne_nil c), if_false, parseCustomerLine_inv hc]
      rw [ih (acc ++ [c]) (fun w hw => h w (List.mem_cons_of_mem c hw))]
      simp

/-- `loadHistoryLoop` reads back verbatim the lines `saveToFile` wrote for
the history. -/
theorem loadHistoryLoop_exact (hs rest : List Str) :
    loadHistoryLoop hs.length (hs ++ rest) = hs := by
  induction hs with
  | nil => simp [loadHistoryLoop]
  | cons l hs ih =>
      rw [List.length_cons, List.cons_append, loadHistoryLoop, ih]

/-- A calendar-valid date string contains no `;`. -/
theorem validDate_no_semi {s : Str} (h : isValidDate s = true) : ';' ∉ s := by
  obtain ⟨y4, m2, d2, rfl, _, _, _, hy, hm, hd, -⟩ := validDate_destruct h
  intro hmem
  rcases List.mem_append.mp hmem with hy4 | hrest
  · have := hy ';' hy4
    simp [isDigitChar] at this
  · rcases List.mem_cons.mp hrest with he | hrest2
    · exact absurd he (by decide)
    · rcases List.mem_append.mp hrest2 with hm2 | hrest3
      · have := hm ';' hm2
        simp [isDigitChar] at this
      · rcases List.mem_cons.mp hrest3 with he | hd2
        · exact absurd he (by decide)
        · have := hd ';' hd2
          simp [isDigitChar] at this

theorem getCustomerIn_isSome {s : MState} {id : Str}
    (h : ∃ c ∈ s.customers, c.id = id) : ∃ c, getCustomerIn s id = some c := by
  have hsome : (s.customers.find? (fun c => c.id = id)).isSome = true := by
    rw [List.find?_isSome]
    obtain ⟨c, hc, he⟩ := h
    exact ⟨c, hc, by simp [he]⟩
  rcases hfo : s.customers.find? (fun c => c.id = id) with _ | c
  · rw [hfo] at hsome
    simp at hsome
  · exact ⟨c, hfo⟩

/-- `rentVehicle` succeeds, appending exactly the requested rental, whenever
the vehicle and customer exist, the vehicle is not already rented and the
dates are valid and ordered. -/
theorem rentVehicle_success {V : List Vehicle} {C : List Customer} {R : List Rental}
    {H : List Str} {r : Rental}
    (hv : ∃ v ∈ V, v.regNumber = r.vehReg)
    (hc : ∃ c ∈ C, c.id = r.custId)
    (hnr : ∀ q ∈ R, q.vehReg ≠ r.vehReg)
    (hsd : isValidDate r.startDate = true) (hed : isValidDate r.endDate = true)
    (hlt : lexLt r.startDate r.endDate = true) :
    rentVehicle ⟨V, C, R, H⟩ r.vehReg r.custId r.startDate r.endDate
      = .ok ((), ⟨V, C, R ++ [r], H⟩) := by
  obtain ⟨v₀, hv₀⟩ := getCustomerIn_isSome (s := ⟨V, C, R, H⟩) hc
  obtain ⟨w₀, hw₀⟩ := getVehicleIn_isSome (s := ⟨V, C, R, H⟩) hv
  have hany : R.any (fun q => q.vehReg = r.vehReg) = false := by
    rw [List.any_eq_false]
    intro q hq
    simpa using hnr q hq
  have hle : lexLe r.endDate r.startDate = false := by
    rw [lexLe, hlt]
    rfl
  have hmk : rentalMk r.vehReg r.custId r.startDate r.endDate = .ok r := by
    rcases r with ⟨a, b, c, d⟩
    rw [rentalMk, if_neg (by simpa using not_not_intro hsd),
      if_neg (by simpa using not_not_intro hed), if_neg (by simpa using hle)]
  rw [rentVehicle]
  simp only [hw₀, hv₀, hany, Bool.false_eq_true, if_false, hmk]

/-- The fields written for one rental of a clean state are non-empty and
`;`-free. -/
theorem rentalFields_clean {V : List Vehicle} {C : List Customer} {r : Rental}
    (hr : rentalClean V C r) : ∀ f ∈ rentalFields r, f ≠ [] ∧ ';' ∉ f := by
  obtain ⟨hsd, hed, hlt, hv, hc, hvr1, hvrc, hci1, hcic⟩ := hr
  intro f hf
  simp only [rentalFields, List.mem_cons, List.not_mem_nil, or_false] at hf
  rcases hf with rfl | rfl | rfl | rfl
  · exact ⟨hvr1, hvrc.1⟩
  · exact ⟨hci1, hcic.1⟩
  · exact ⟨validDate_ne_nil hsd, validDate_no_semi hsd⟩
  · exact ⟨validDate_ne_nil hed, validDate_no_semi hed⟩

/-- `loadRentalsLoop` replays back exactly the lines `saveToFile` wrote for
the rentals of a clean state. -/
theorem loadRentalsLoop_exact (rs : List Rental) (V : List Vehicle) (C : List Customer)
    (pre : List Rental) (H rest : List Str)
    (hcl : ∀ r ∈ rs, rentalClean V C r)
    (hnd : ((pre ++ rs).map Rental.vehReg).Nodup) :
    loadRentalsLoop ⟨V, C, pre, H⟩ rs.length
        (rs.map (fun r => joinSemi (rentalFields r)) ++ rest)
      = (⟨V, C, pre ++ rs, H⟩, rest) := by
  induction rs generalizing pre with
  | nil => simp [loadRentalsLoop]
  | cons r rs ih =>
      have hr := hcl r (List.mem_cons_self r rs)
      obtain ⟨hsd, hed, hlt, hv, hc, hvr1, hvrc, hci1, hcic⟩ := hr
      have hfields := rentalFields_clean (hcl r (List.mem_cons_self r rs))
      have hsplit : splitSemi (joinSemi (rentalFields r)) = rentalFields r :=
        splitSemi_joinSemi (by simp [rentalFields])
          (fun x hx => (hfields x hx).2) (fun x hx => (hfields x hx).1)
      have hnr : ∀ q ∈ pre, q.vehReg ≠ r.vehReg := by
        intro q hq heq
        rw [List.map_append, List.nodup_append] at hnd
        exact hnd.2.2 (heq ▸ List.mem_map_of_mem Rental.vehReg hq)
          (List.mem_cons_self r.vehReg _)
      have hsucc := rentVehicle_success (H := H) (R := pre) hv hc hnr hsd hed hlt
      rw [List.length_cons, List.map_cons, List.cons_append, loadRentalsLoop]
      simp only [hsplit]
      rw [if_neg (by simp [rentalFields])]
      have g0 : (rentalFields r).getD 0 [] = r.vehReg := rfl
      have g1 : (rentalFields r).getD 1 [] = r.custId := rfl
      have g2 : (rentalFields r).getD 2 [] = r.startDate := rfl
      have g3 : (rentalFields r).getD 3 [] = r.endDate := rfl
      simp only [g0, g1, g2, g3, hsucc]
      rw [ih (pre ++ [r]) (fun q hq => hcl q (List.mem_cons_of_mem r hq))
        (by simpa [List.append_assoc] using hnd)]
      simp

/-- Loading the file written for a clean state restores that state exactly,
whatever the manager held before the load. -/
theorem loadFromFile_sections (s : MState) (V : List Vehicle) (C : List Customer)
    (R : List Rental) (H : List Str)
    (hv : ∀ v ∈ V, vehicleClean v) (hcs : ∀ c ∈ C, customerClean c)
    (hrs : ∀ r ∈ R, rentalClean V C r) (hnd : (R.map Rental.vehReg).Nodup) :
    loadFromFile s (some (saveToFile ⟨V, C, R, H⟩)) = .ok ⟨V, C, R, H⟩ := by
  have eH : loadHistoryLoop H.length H = H := by
    simpa using loadHistoryLoop_exact H []
  have eR := loadRentalsLoop_exact R V C [] s.rentalHistory (natToStr H.length :: H) hrs
    (by simpa using hnd)
  rw [List.nil_append] at eR
  have eC := loadCustomersLoop_exact C (natToStr R.length ::
    (R.map (fun r => joinSemi (rentalFields r)) ++ (natToStr H.length :: H))) [] hcs
  rw [List.nil_append] at eC
  have eV := loadVehiclesLoop_exact V (natToStr C.length ::
    (C.map (fun c => joinSemi (customerFields c)) ++ (natToStr R.length ::
      (R.map (fun r => joinSemi (rentalFields r)) ++ (natToStr H.length :: H))))) [] hv
  rw [List.nil_append] at eV
  rw [loadFromFile, saveToFile]
  dsimp only
  simp only [List.cons_append, List.append_assoc]
  simp only [readCount_nat, Int.toNat_natCast, eV, eC, eR, eH]

/-- C8: the round-trip claim as stated fails: a `;` inside a string field
(here the brand `"A;B"`) shifts every later field at reload, the mileage
parse then fails, and the vehicle is silently dropped, so loading the saved
file into a fresh manager yields the empty state instead of the original
one. -/
theorem claim_C8_counterexample :
    loadFromFile emptyMState (some (saveToFile
        ⟨[⟨"R1".data, "A;B".data, "M".data, 0, 100, .B, .electricCar 50 4⟩], [], [], []⟩))
      = .ok emptyMState ∧
    (⟨[⟨"R1".data, "A;B".data, "M".data, 0, 100, .B, .electricCar 50 4⟩], [], [], []⟩
      : MState) ≠ emptyMState := by
  have e100 : fmtQ (100 : ℚ) = ['1', '0', '0'] := by
    rw [fmtQ_natField (by decide)]
    have hn : (100 : ℚ).num.toNat = 100 := by decide
    rw [hn]
    simp [natToStr, natDigits, digitChar]
  have e50 : fmtQ (50 : ℚ) = ['5', '0'] := by
    rw [fmtQ_natField (by decide)]
    have hn : (50 : ℚ).num.toNat = 50 := by decide
    rw [hn]
    simp [natToStr, natDigits, digitChar]
  have e4i : intToStr 4 = ['4'] := by
    simp [intToStr, natToStr, natDigits, digitChar]
  have e1n : natToStr 1 = ['1'] := by
    simp [natToStr, natDigits, digitChar]
  have h1 : saveToFile ⟨[⟨"R1".data, "A;B".data, "M".data, 0, 100, .B,
      .electricCar 50 4⟩], [], [], []⟩
      = ["1".data, "ElectricCar;A;B;M;R1;100;50;1;0;4".data,
          "0".data, "0".data, "0".data] := by
    rw [saveToFile]
    simp only [List.map_cons, List.map_nil, List.length_cons, List.length_nil,
      Nat.reduceAdd, vehicleFields, catToNat]
    rw [e100, e50, e4i, e1n]
    decide
  rw [h1]
  exact ⟨by decide, by
    intro h
    have h2 : ([⟨"R1".data, "A;B".data, "M".data, 0, 100, .B, .electricCar 50 4⟩]
        : List Vehicle) = [] := congrArg MState.vehicles h
    simp at h2⟩

/-- Elimination for a successful `rentVehicle`: the appended rental is built
from the arguments, which passed every validation. -/
theorem rentVehicle_ok_elim {s t : MState} {u : Unit} {reg cid sd ed : Str}
    (h : rentVehicle s reg cid sd ed = .ok (u, t)) :
    t = { s with rentals := s.rentals ++ [⟨reg, cid, sd, ed⟩] } ∧
    (∃ v ∈ s.vehicles, v.regNumber = reg) ∧ (∃ c ∈ s.customers, c.id = cid) ∧
    (∀ q ∈ s.rentals, q.vehReg ≠ reg) ∧
    isValidDate sd = true ∧ isValidDate ed = true ∧ lexLt sd ed = true := by
  rw [rentVehicle] at h
  rcases hv : getVehicleIn s reg with _ | v
  · rw [hv] at h
    exact absurd h (by simp)
  rw [hv] at h
  rcases hcu : getCustomerIn s cid with _ | c
  · rw [hcu] at h
    exact absurd h (by simp)
  rw [hcu] at h
  by_cases hrent : s.rentals.any (fun q => q.vehReg = reg) = true
  · rw [if_pos hrent] at h
    exact absurd h (by simp)
  rw [if_neg hrent] at h
  rcases hmk : rentalMk reg cid sd ed with e | r
  · rw [hmk] at h
    exact absurd h (by simp)
  rw [hmk] at h
  obtain ⟨hsd, hed, hlt, rfl⟩ := rentalMk_ok hmk
  have ht : t = { s with rentals := s.rentals ++ [⟨reg, cid, sd, ed⟩] } := by
    have := congrArg (fun x : Except (String × MState) (Unit × MState) =>
      match x with | .ok (_, st) => st | .error _ => s) h
    simpa using this.symm
  refine ⟨ht, ⟨v, (getVehicleIn_some hv).1, (getVehicleIn_some hv).2⟩,
    ⟨c, (getCustomerIn_some hcu).1, (getCustomerIn_some hcu).2⟩, ?_, hsd, hed, hlt⟩
  intro q hq
  have h5 : s.rentals.any (fun q => q.vehReg = reg) = false := by
    simpa using hrent
  rw [List.any_eq_false] at h5
  simpa using h5 q hq

/-- `rentVehicle` never reads or writes the history: runs from states
differing only in the history take the same branch and produce the same
collections. -/
theorem rentVehicle_hist (V : List Vehicle) (C : List Customer) (R : List Rental)
    (H H' : List Str) (reg cid sd ed : Str) :
    (∃ e, rentVehicle ⟨V, C, R, H⟩ reg cid sd ed = .error (e, ⟨V, C, R, H⟩) ∧
          rentVehicle ⟨V, C, R, H'⟩ reg cid sd ed = .error (e, ⟨V, C, R, H'⟩)) ∨
    (∃ r, rentVehicle ⟨V, C, R, H⟩ reg cid sd ed = .ok ((), ⟨V, C, R ++ [r], H⟩) ∧
          rentVehicle ⟨V, C, R, H'⟩ reg cid sd ed = .ok ((), ⟨V, C, R ++ [r], H'⟩)) := by
  rw [rentVehicle, rentVehicle]
  have hswap1 : getVehicleIn ⟨V, C, R, H'⟩ reg = getVehicleIn ⟨V, C, R, H⟩ reg := rfl
  have hswap2 : getCustomerIn ⟨V, C, R, H'⟩ cid = getCustomerIn ⟨V, C, R, H⟩ cid := rfl
  have hswap3 : (⟨V, C, R, H'⟩ : MState).rentals.any (fun r => r.vehReg = reg)
      = (⟨V, C, R, H⟩ : MState).rentals.any (fun r => r.vehReg = reg) := rfl
  rw [hswap1, hswap2, hswap3]
  rcases hv : getVehicleIn ⟨V, C, R, H⟩ reg with _ | v
  · exact Or.inl ⟨_, rfl, rfl⟩
  rcases hc : getCustomerIn ⟨V, C, R, H⟩ cid with _ | c
  · exact Or.inl ⟨_, rfl, rfl⟩
  by_cases hrent : (⟨V, C, R, H⟩ : MState).rentals.any (fun r => r.vehReg = reg) = true
  · rw [if_pos hrent, if_pos hrent]
    exact Or.inl ⟨_, rfl, rfl⟩
  · rw [if_neg hrent, if_neg hrent]
    rcases hmk : rentalMk reg cid sd ed with e | r
    · exact Or.inl ⟨_, rfl, rfl⟩
    · exact Or.inr ⟨r, rfl, rfl⟩

/-- The rental-replay loop never reads or writes the history either. -/
theorem loadRentalsLoop_indep (n : Nat) (L : List Str) (V : List Vehicle)
    (C : List Customer) (R : List Rental) (H H' : List Str) :
    ∃ R2 rest, loadRentalsLoop ⟨V, C, R, H⟩ n L = (⟨V, C, R2, H⟩, rest) ∧
      loadRentalsLoop ⟨V, C, R, H'⟩ n L = (⟨V, C, R2, H'⟩, rest) := by
  induction n generalizing L R with
  | zero => exact ⟨R, L, rfl, rfl⟩
  | succ n ih =>
      rcases L with _ | ⟨l, rest⟩
      · exact ⟨R, [], rfl, rfl⟩
      · rw [loadRentalsLoop, loadRentalsLoop]
        by_cases hlen : (splitSemi l).length < 4
        · rw [if_pos hlen, if_pos hlen]
          exact ih rest R
        · rw [if_neg hlen, if_neg hlen]
          rcases rentVehicle_hist V C R H H' ((splitSemi l).getD 0 [])
              ((splitSemi l).getD 1 []) ((splitSemi l).getD 2 [])
              ((splitSemi l).getD 3 []) with ⟨e, h1, h2⟩ | ⟨r, h1, h2⟩
          · simp only [h1, h2]
            exact ih rest R
          · simp only [h1, h2]
            exact ih rest (R ++ [r])

/-- A successful load yields a state determined by the file alone: the
manager contents before the load never influence it. -/
theorem loadFromFile_ok_indep (lines : List Str) (s t : MState) (m n : MState)
    (h1 : loadFromFile s (some lines) = .ok m)
    (h2 : loadFromFile t (some lines) = .ok n) : m = n := by
  rw [loadFromFile] at h1 h2
  rcases hc1 : readCount lines with e | ⟨vC, r1⟩
  · simp only [hc1] at h1
    exact absurd h1 (by simp)
  simp only [hc1] at h1 h2
  rcases hV : loadVehiclesLoop vC.toNat r1 [] with ⟨vs, r2⟩
  simp only [hV] at h1 h2
  rcases hc2 : readCount r2 with e | ⟨cC, r3⟩
  · simp only [hc2] at h1
    exact absurd h1 (by simp)
  simp only [hc2] at h1 h2
  rcases hC : loadCustomersLoop cC.toNat r3 [] with ⟨cs, r4⟩
  simp only [hC] at h1 h2
  rcases hc3 : readCount r4 with e | ⟨rC, r5⟩
  · simp only [hc3] at h1
    exact absurd h1 (by simp)
  simp only [hc3] at h1 h2
  obtain ⟨R2, r6, hA, hB⟩ :=
    loadRentalsLoop_indep rC.toNat r5 vs cs [] s.rentalHistory t.rentalHistory
  simp only [hA] at h1
  simp only [hB] at h2
  rcases hc4 : readCount r6 with e | ⟨hC2, r7⟩
  · simp only [hc4] at h1
    exact absurd h1 (by simp)
  simp only [hc4] at h1 h2
  injection h1 with h1e
  injection h2 with h2e
  rw [← h1e, ← h2e]

/-- The well-formedness the rental-replay validation enforces on the loaded
rentals: pairwise-distinct vehicle keys, and every rental references an
existing vehicle and customer and carries valid, ordered dates. -/
def RentalsWF (t : MState) : Prop :=
  (t.rentals.map Rental.vehReg).Nodup ∧
  ∀ r ∈ t.rentals, (∃ v ∈ t.vehicles, v.regNumber = r.vehReg) ∧
    (∃ c ∈ t.customers, c.id = r.custId) ∧ isValidDate r.startDate = true ∧
    isValidDate r.endDate = true ∧ lexLt r.startDate r.endDate = true

/-- A successful `rentVehicle` preserves `RentalsWF`. -/
theorem rentVehicle_wf {s t : MState} {u : Unit} {reg cid sd ed : Str}
    (h : rentVehicle s reg cid sd ed = .ok (u, t)) (hs : RentalsWF s) : RentalsWF t := by
  obtain ⟨ht, hv, hc, hnr, hsd, hed, hlt⟩ := rentVehicle_ok_elim h
  subst ht
  constructor
  · simp only [List.map_append, List.map_cons, List.map_nil]
    rw [List.nodup_append]
    refine ⟨hs.1, List.nodup_singleton _, ?_⟩
    intro a ha hb
    obtain ⟨q, hq, rfl⟩ := List.mem_map.mp ha
    have : q.vehReg = reg := by simpa using hb
    exact hnr q hq this
  · intro r hr
    rcases List.mem_append.mp hr with hold | hnew
    · exact hs.2 r hold
    · have : r = ⟨reg, cid, sd, ed⟩ := by simpa using hnew
      subst this
      exact ⟨hv, hc, hsd, hed, hlt⟩

/-- The rental-replay loop preserves `RentalsWF`: every surviving line went
through `rentVehicle`, failures being skipped. -/
theorem loadRentalsLoop_wf (n : Nat) (L : List Str) (st : MState)
    (h : RentalsWF st) : RentalsWF (loadRentalsLoop st n L).1 := by
  induction n generalizing L st with
  | zero => exact h
  | succ n ih =>
      rcases L with _ | ⟨l, rest⟩
      · exact h
      · rw [loadRentalsLoop]
        by_cases hlen : (splitSemi l).length < 4
        · rw [if_pos hlen]
          exact ih rest st h
        · rw [if_neg hlen]
          rcases hrv : rentVehicle st ((splitSemi l).getD 0 []) ((splitSemi l).getD 1 [])
              ((splitSemi l).getD 2 []) ((splitSemi l).getD 3 []) with e | ⟨u, st2⟩
          · simp only [hrv]
            exact ih rest st h
          · simp only [hrv]
            exact ih rest st2 (rentVehicle_wf hrv h)

/-- Every state a successful load produces satisfies `RentalsWF`. -/
theorem loadFromFile_wf (lines : List Str) (s m : MState)
    (h1 : loadFromFile s (some lines) = .ok m) : RentalsWF m := by
  rw [loadFromFile] at h1
  rcases hc1 : readCount lines with e | ⟨vC, r1⟩
  · simp only [hc1] at h1
    exact absurd h1 (by simp)
  simp only [hc1] at h1
  rcases hV : loadVehiclesLoop vC.toNat r1 [] with ⟨vs, r2⟩
  simp only [hV] at h1
  rcases hc2 : readCount r2 with e | ⟨cC, r3⟩
  · simp only [hc2] at h1
    exact absurd h1 (by simp)
  simp only [hc2] at h1
  rcases hC : loadCustomersLoop cC.toNat r3 [] with ⟨cs, r4⟩
  simp only [hC] at h1
  rcases hc3 : readCount r4 with e | ⟨rC, r5⟩
  · simp only [hc3] at h1
    exact absurd h1 (by simp)
  simp only [hc3] at h1
  rcases hR : loadRentalsLoop ⟨vs, cs, [], s.rentalHistory⟩ rC.toNat r5 with ⟨s3, r6⟩
  simp only [hR] at h1
  rcases hc4 : readCount r6 with e | ⟨hC2, r7⟩
  · simp only [hc4] at h1
    exact absurd h1 (by simp)
  simp only [hc4] at h1
  injection h1 with h1e
  have hwf : RentalsWF s3 := by
    have := loadRentalsLoop_wf rC.toNat r5 ⟨vs, cs, [], s.rentalHistory⟩
      ⟨by simp, by simp⟩
    rw [hR] at this
    exact this
  rw [← h1e]
  exact ⟨hwf.1, hwf.2⟩

/-- C8 (amended): for a clean state — constructor invariants hold, string
fields contain no `;` and no newline, `double` fields are non-negative
integers below 10^6 (the sub-domain C++ stream output reproduces exactly),
rentals reference existing vehicles and customers with pairwise-distinct
vehicle keys, and history lines contain no newline — saving and then
loading into a fresh manager restores exactly the same vehicles, customers,
rentals and history. -/
theorem claim_C8_amended (s : MState) (h : CleanState s) :
    loadFromFile emptyMState (some (saveToFile s)) = .ok s := by
  obtain ⟨hv, hc, hr, hnd, -⟩ := h
  rcases s with ⟨V, C, R, H⟩
  exact loadFromFile_sections emptyMState V C R H hv hc hr hnd

/-- C8 witness: a concrete one-vehicle, one-customer, one-rental clean state
round-trips exactly. -/
theorem claim_C8_witness :
    CleanState ⟨[⟨"R1".data, "VW".data, "Golf".data, 0, 100, .B,
          .combustionCar 2 5 .gasoline 4⟩],
        [⟨"C1".data, "Ann".data, "Oak".data, .privateCustomer⟩],
        [⟨"R1".data, "C1".data, "0002-01-01".data, "0002-01-02".data⟩],
        ["h1".data]⟩ ∧
    loadFromFile emptyMState (some (saveToFile
        ⟨[⟨"R1".data, "VW".data, "Golf".data, 0, 100, .B,
            .combustionCar 2 5 .gasoline 4⟩],
          [⟨"C1".data, "Ann".data, "Oak".data, .privateCustomer⟩],
          [⟨"R1".data, "C1".data, "0002-01-01".data, "0002-01-02".data⟩],
          ["h1".data]⟩))
      = .ok ⟨[⟨"R1".data, "VW".data, "Golf".data, 0, 100, .B,
            .combustionCar 2 5 .gasoline 4⟩],
          [⟨"C1".data, "Ann".data, "Oak".data, .privateCustomer⟩],
          [⟨"R1".data, "C1".data, "0002-01-01".data, "0002-01-02".data⟩],
          ["h1".data]⟩ :=
  ⟨by decide, claim_C8_amended _ (by decide)⟩

/-- C9 counterexample: loading from a missing file is indeed not an error,
but it returns with the manager exactly as it was — here still holding a
customer — not with an empty initial state. -/
theorem claim_C9_counterexample :
    loadFromFile ⟨[], [⟨"C1".data, "N".data, "A".data, .privateCustomer⟩], [], []⟩ none
      = .ok ⟨[], [⟨"C1".data, "N".data, "A".data, .privateCustomer⟩], [], []⟩ ∧
    (⟨[], [⟨"C1".data, "N".data, "A".data, .privateCustomer⟩], [], []⟩ : MState)
      ≠ emptyMState :=
  ⟨rfl, by decide⟩

/-- C9 (amended): a missing file is not an error and leaves the manager
state exactly as it was (not empty).  When a file is present, the three
entity collections are cleared up front — the result only ever depends on
the prior state through its history, which survives only into error states
— so any successful load yields a state determined by the file alone; and
because every surviving rental was replayed through `rentVehicle` (failing
replays being silently skipped), the loaded rentals have pairwise-distinct
vehicle keys and all reference an existing vehicle and customer with
valid, ordered dates. -/
theorem claim_C9_amended :
    (∀ s : MState, loadFromFile s none = .ok s) ∧
    (∀ (s : MState) (lines : List Str),
      loadFromFile s (some lines)
        = loadFromFile ⟨[], [], [], s.rentalHistory⟩ (some lines)) ∧
    (∀ (s t : MState) (lines : List Str) (m n : MState),
      loadFromFile s (some lines) = .ok m →
      loadFromFile t (some lines) = .ok n → m = n) ∧
    (∀ (s : MState) (lines : List Str) (m : MState),
      loadFromFile s (some lines) = .ok m →
      (m.rentals.map Rental.vehReg).Nodup ∧
      ∀ r ∈ m.rentals, (∃ v ∈ m.vehicles, v.regNumber = r.vehReg) ∧
        (∃ c ∈ m.customers, c.id = r.custId) ∧ isValidDate r.startDate = true ∧
        isValidDate r.endDate = true ∧ lexLt r.startDate r.endDate = true) :=
  ⟨fun _ => rfl, fun _ _ => rfl,
    fun s t lines m n h1 h2 => loadFromFile_ok_indep lines s t m n h1 h2,
    fun s lines m h => loadFromFile_wf lines s m h⟩

/-- C9 witness: the amended statement exercised on concrete inputs — a
missing file returns a non-empty state unchanged, and a load of the empty
file from two different states gives the same (well-formed) result. -/
theorem claim_C9_witness :
    loadFromFile ⟨[], [], [], [['x']]⟩ none = .ok ⟨[], [], [], [['x']]⟩ ∧
    ((⟨[], [], [], []⟩ : MState) = ⟨[], [], [], []⟩) ∧
    ((⟨[], [], [], []⟩ : MState).rentals.map Rental.vehReg).Nodup :=
  ⟨claim_C9_amended.1 _,
    claim_C9_amended.2.2.1 ⟨[], [], [], [['x']]⟩ emptyMState []
      ⟨[], [], [], []⟩ ⟨[], [], [], []⟩ rfl rfl,
    (claim_C9_amended.2.2.2 emptyMState [] ⟨[], [], [], []⟩ rfl).1⟩

end VRS
